import Mathlib

/-!
# Verification of the diff3 three-way reconciliation engine

A shallow embedding of the core of GNU diff3 (`src/diff3.c`): the data model
for two-way diff hunks and three-way blocks, the reconciler
(`make_3way_diff`), the block builder (`using_to_diff3_block` and its
helpers), the three output renderers, the provider exit-status
classification of `read_diff`, and the option-compatibility checks of
`main`.  Machine integers of type `lin` (a signed `ptrdiff_t`) are modelled
as `Int`; line payloads (a `char *` pointer plus an `idx_t` length) are
modelled as byte lists, so that pointer-plus-length equality used by
`memcmp` after a length check becomes list equality.  Null line pointers
inside a `diff3_block` are modelled as `Option`.  Fatal exits
(`fatal` / `error (EXIT_TROUBLE, ...)`) are modelled with `Except`.
-/

set_option maxHeartbeats 1000000

namespace Diff3

/- `lin` from `system.h` is a signed integer line number (`ptrdiff_t`);
it is modelled as `Int` throughout. -/

/-- A line payload: the bytes of the line, including its trailing newline
when present.  The C code stores a `char *` plus a length. -/
abbrev Payload := List Nat

/-- Exit status for any trouble condition (`EXIT_TROUBLE`); the value 2 is
fixed by the exit-status contract of the program (diff/diff3 headers outside
`src/` define it as 2). -/
def EXIT_TROUBLE : Nat := 2

/-- A fatal-error outcome: the process exit status together with the
diagnostic message, as produced by `fatal` / `error (EXIT_TROUBLE, 0, msg)`. -/
structure RunError where
  status : Nat
  msg : String
  deriving Repr, DecidableEq

/-- `enum diff_type` from `diff3.c`. -/
inductive diff_type where
  | DIFF_ERROR
  | DIFF_ADD
  | DIFF_CHANGE
  | DIFF_DELETE
  | DIFF_ALL
  | DIFF_1ST
  | DIFF_2ND
  | DIFF_3RD
  deriving Repr, DecidableEq

export diff_type (DIFF_ERROR DIFF_ADD DIFF_CHANGE DIFF_DELETE DIFF_ALL DIFF_1ST DIFF_2ND DIFF_3RD)

/-- `struct diff_block`: a two-way hunk.  `FO` is the non-common file of the
pairwise diff, `FC` the common file.  Ranges are inclusive; an empty range
has `hi = lo - 1`.  The C `lines`/`lengths` arrays of a parsed hunk are
fully populated, so they are plain lists here. -/
structure diff_block where
  loFO : Int
  hiFO : Int
  loFC : Int
  hiFC : Int
  linesFO : List Payload
  linesFC : List Payload
  deriving Repr, DecidableEq

/-- `D_NUMLINES` on the non-common side of a two-way hunk. -/
def diff_block.numlinesFO (b : diff_block) : Int := b.hiFO - b.loFO + 1

/-- `D_NUMLINES` on the common side of a two-way hunk. -/
def diff_block.numlinesFC (b : diff_block) : Int := b.hiFC - b.loFC + 1

/-- `struct diff3_block`: a three-way block.  File 0 is MINE's thread, file 1
is YOURS's thread, file 2 (`FILEC`) the common file.  Line slots are
`Option` because `create_diff3_block` zero-fills the pointer arrays. -/
structure diff3_block where
  correspond : diff_type
  lo0 : Int
  hi0 : Int
  lo1 : Int
  hi1 : Int
  lo2 : Int
  hi2 : Int
  lines0 : List (Option Payload)
  lines1 : List (Option Payload)
  lines2 : List (Option Payload)
  deriving Repr, DecidableEq

/-- `D_LOWLINE` of a `diff3_block`, by internal file number. -/
def diff3_block.lo (b : diff3_block) : Nat → Int
  | 0 => b.lo0
  | 1 => b.lo1
  | _ => b.lo2

/-- `D_HIGHLINE` of a `diff3_block`, by internal file number. -/
def diff3_block.hi (b : diff3_block) : Nat → Int
  | 0 => b.hi0
  | 1 => b.hi1
  | _ => b.hi2

/-- The line array of a `diff3_block`, by internal file number. -/
def diff3_block.lines (b : diff3_block) : Nat → List (Option Payload)
  | 0 => b.lines0
  | 1 => b.lines1
  | _ => b.lines2

/-- `D_NUMLINES` of a `diff3_block`, by internal file number. -/
def diff3_block.numlines (b : diff3_block) (f : Nat) : Int := b.hi f - b.lo f + 1

/-- The `static struct diff3_block const zero_diff3`: zero-initialized, so
every range endpoint is line 0 and every line array is null. -/
def zero_diff3 : diff3_block :=
  { correspond := DIFF_ERROR
    lo0 := 0, hi0 := 0, lo1 := 0, hi1 := 0, lo2 := 0, hi2 := 0
    lines0 := [], lines1 := [], lines2 := [] }

/-- The copying loop of `copy_stringlist`, after the source and destination
pointers have been offset: copy `copynum` payloads from `src` into the slots
of `dst`, requiring any already-filled slot to hold an equal payload
(equal length and equal bytes, per the `*fl != *tl || memcmp` test).
Returns `none` where the C function returns `false` (and also if the arrays
are shorter than `copynum`, which cannot happen for well-formed hunks). -/
def copy_stringlist : List Payload → List (Option Payload) → Nat → Option (List (Option Payload))
  | _, dst, 0 => some dst
  | f :: fs, t :: ts, n + 1 =>
    match t with
    | some p => if f = p then (copy_stringlist fs ts n).map (fun r => some p :: r) else none
    | none => (copy_stringlist fs ts n).map (fun r => some f :: r)
  | _, _, _ + 1 => none

/-- `copy_stringlist` applied at an offset into the destination array, as at
the call sites `D_LINEARRAY (result, f) + result_offset`. -/
def copy_at (dst : List (Option Payload)) (off : Nat) (src : List Payload) (n : Nat) :
    Option (List (Option Payload)) :=
  (copy_stringlist src (dst.drop off) n).map (fun r => dst.take off ++ r)

/-- `create_diff3_block`: ranges as given, type `DIFF_ERROR`, and zero-filled
line arrays of `D_NUMLINES` slots each. -/
def create_diff3_block (low0 high0 low1 high1 low2 high2 : Int) : diff3_block :=
  { correspond := DIFF_ERROR
    lo0 := low0, hi0 := high0, lo1 := low1, hi1 := high1, lo2 := low2, hi2 := high2
    lines0 := List.replicate (high0 - low0 + 1).toNat none
    lines1 := List.replicate (high1 - low1 + 1).toNat none
    lines2 := List.replicate (high2 - low2 + 1).toNat none }

/-- `compare_line_list`: `nl` corresponding payloads must be non-null, of
equal length, and byte-for-byte equal. -/
def compare_line_list (l1 l2 : List (Option Payload)) : Nat → Bool
  | 0 => true
  | n + 1 =>
    match l1, l2 with
    | some p :: t1, some q :: t2 => p = q && compare_line_list t1 t2 n
    | _, _ => false

/-- Copy the common-file lines of each hunk of one using list into the
result's `FILEC` slots at offset `D_LOWLINE (ptr, FC) - lowc`, cross-checking
already-filled slots (the first `for d` loop of `using_to_diff3_block`). -/
def copy_common : List diff_block → Int → List (Option Payload) → Option (List (Option Payload))
  | [], _, dst => some dst
  | ptr :: rest, lowc, dst =>
    match copy_at dst (ptr.loFC - lowc).toNat ptr.linesFC ptr.numlinesFC.toNat with
    | none => none
    | some dst1 => copy_common rest lowc dst1

/-- Copy `count` slots of `common` (starting at `srcStart`) into `dst`
(starting at `dstStart`): the gap-filling assignments
`D_RELNUM (result, FILE0 + d, i) = D_RELNUM (result, FILEC, linec)`. -/
def fill_from (common : List (Option Payload)) :
    List (Option Payload) → Int → Int → Nat → List (Option Payload)
  | dst, _, _, 0 => dst
  | dst, dstStart, srcStart, n + 1 =>
    fill_from common (dst.set dstStart.toNat (common.getD srcStart.toNat none))
      (dstStart + 1) (srcStart + 1) n

/-- The per-hunk part of the `for d` copy loop of `using_to_diff3_block`:
copy each hunk's `FO` lines in at offset `D_LOWLINE (ptr, FO) - lo`, then
fill the gap up to the next hunk (or `hi + 1`) from the aligned common
slots starting at `D_HIGHLINE (ptr, FC) + 1 - lowc`. -/
def copy_d_side (common : List (Option Payload)) (lo hi lowc : Int) :
    List diff_block → List (Option Payload) → Option (List (Option Payload))
  | [], dst => some dst
  | ptr :: rest, dst =>
    match copy_at dst (ptr.loFO - lo).toNat ptr.linesFO ptr.numlinesFO.toNat with
    | none => none
    | some dst1 =>
      let gapStart : Int := ptr.hiFO + 1 - lo
      let bound : Int := (match rest with | nx :: _ => nx.loFO | [] => hi + 1) - lo
      let linec : Int := ptr.hiFC + 1 - lowc
      copy_d_side common lo hi lowc rest
        (fill_from common dst1 gapStart linec (bound - gapStart).toNat)

/-- The window-to-thread-range mapping of `using_to_diff3_block`: when the
using list is non-empty, `D_LOW_MAPLINE` through its first hunk and
`D_HIGH_MAPLINE` through its last; when empty, interpolate both endpoints
off the bottom of the last emitted block (`D_HIGH_MAPLINE (last_diff3,
FILEC, FILE0 + d, ...)`). -/
def thread_range (u : List diff_block) (lowc highc : Int) (last_diff3 : diff3_block)
    (d : Nat) : Int × Int :=
  match u.head?, u.getLast? with
  | some f, some l => (lowc - f.loFC + f.loFO, highc - l.hiFC + l.hiFO)
  | _, _ =>
    (lowc - last_diff3.hi2 + last_diff3.hi d, highc - last_diff3.hi2 + last_diff3.hi d)

/-- The full side-`d` copy of `using_to_diff3_block`: the prefix before the
first hunk is taken from the aligned common slots (same relative index),
then `copy_d_side` handles the hunks and the gaps between and after them. -/
def build_side (common : List (Option Payload)) (u : List diff_block) (lo hi lowc : Int) :
    Option (List (Option Payload)) :=
  let init : List (Option Payload) := List.replicate (hi - lo + 1).toNat none
  let bound : Int := (match u with | f :: _ => f.loFO | [] => hi + 1) - lo
  copy_d_side common lo hi lowc u (fill_from common init 0 0 bound.toNat)

/-- `using_to_diff3_block`: derive the three ranges from the using lists and
the window, copy in the common lines (cross-checking slots filled by both
threads), copy and interpolate the two other files, and classify the block.
Returns `none` exactly where the C function returns a null pointer. -/
def using_to_diff3_block (u0 u1 : List diff_block) (low_thread high_thread : Nat)
    (last_diff3 : diff3_block) : Option diff3_block :=
  ((if low_thread = 0 then u0 else u1).head?).bind fun lf =>
  ((if high_thread = 0 then u0 else u1).getLast?).bind fun ll =>
  let lowc := lf.loFC
  let highc := ll.hiFC
  let r0 := thread_range u0 lowc highc last_diff3 0
  let r1 := thread_range u1 lowc highc last_diff3 1
  let base := create_diff3_block r0.1 r0.2 r1.1 r1.2 lowc highc
  (copy_common u0 lowc base.lines2).bind fun ca =>
  (copy_common u1 lowc ca).bind fun c =>
  (build_side c u0 r0.1 r0.2 lowc).bind fun s0 =>
  (build_side c u1 r1.1 r1.2 lowc).bind fun s1 =>
  let nl0 : Int := r0.2 - r0.1 + 1
  let nl1 : Int := r1.2 - r1.1 + 1
  let corr :=
    if u0.isEmpty then DIFF_2ND
    else if u1.isEmpty then DIFF_1ST
    else if nl0 ≠ nl1 || !(compare_line_list s0 s1 nl0.toNat) then DIFF_ALL
    else DIFF_3RD
  some { correspond := corr
         lo0 := r0.1, hi0 := r0.2, lo1 := r1.1, hi1 := r1.2
         lo2 := lowc, hi2 := highc
         lines0 := s0, lines1 := s1, lines2 := c }

/-! ## The reconciler: `make_3way_diff` -/

/-- The loop state of `make_3way_diff`'s inner "shuffle up the ladder" loop:
the high-water thread and mark, the two using lists being accumulated, and
the two cursors over the remaining hunk chains. -/
structure loop_state where
  hwT : Nat
  hw : Int
  u0 : List diff_block
  u1 : List diff_block
  c0 : List diff_block
  c1 : List diff_block
  deriving Repr, DecidableEq

/-- The inner `while (other_diff && D_LOWLINE (other_diff, FC) <=
high_water_mark + 1)` loop of `make_3way_diff`: while the other thread's
current hunk exists and overlaps or is adjacent to the window, move it onto
that thread's using list, and raise the high-water mark (flipping the
high-water thread) whenever the absorbed hunk's high line exceeds it.
Each pass consumes one hunk from a cursor, so the fuel
`s.c0.length + s.c1.length` used below is never exhausted before the loop
exits by its own condition. -/
def absorb_go : Nat → loop_state → loop_state
  | 0, s => s
  | fuel + 1, s =>
    if s.hwT = 0 then
      match s.c1 with
      | [] => s
      | od :: c1t =>
        if od.loFC ≤ s.hw + 1 then
          absorb_go fuel
            { hwT := if s.hw < od.hiFC then 1 else 0
              hw := if s.hw < od.hiFC then od.hiFC else s.hw
              u0 := s.u0, u1 := s.u1 ++ [od], c0 := s.c0, c1 := c1t }
        else s
    else
      match s.c0 with
      | [] => s
      | od :: c0t =>
        if od.loFC ≤ s.hw + 1 then
          absorb_go fuel
            { hwT := if s.hw < od.hiFC then 0 else 1
              hw := if s.hw < od.hiFC then od.hiFC else s.hw
              u0 := s.u0 ++ [od], u1 := s.u1, c0 := c0t, c1 := s.c1 }
        else s

/-- The absorb loop run to completion. -/
def absorb (s : loop_state) : loop_state := absorb_go (s.c0.length + s.c1.length) s

/-- The head-of-iteration selection of `make_3way_diff`: the base thread is
the thread whose current hunk has the smaller low line in the common file
(`D_LOWLINE (current[0], FC) > D_LOWLINE (current[1], FC)` picks thread 1
only on a strict inequality), the non-exhausted thread if one cursor is
null.  Returns the base thread, the base hunk, and the two cursors after
the base hunk is taken; `none` when both cursors are exhausted. -/
def pick_base : List diff_block → List diff_block →
    Option (Nat × diff_block × List diff_block × List diff_block)
  | [], [] => none
  | h0 :: r0, [] => some (0, h0, r0, [])
  | [], h1 :: r1 => some (1, h1, [], r1)
  | h0 :: r0, h1 :: r1 =>
    if h0.loFC > h1.loFC then some (1, h1, h0 :: r0, r1) else some (0, h0, r0, h1 :: r1)

/-- The message of the `fatal` call in `make_3way_diff` when
`using_to_diff3_block` fails. -/
def screwup_msg : String := "internal error: screwup in format of diff blocks"

/-- The main loop of `make_3way_diff`, with fuel bounding the number of
iterations.  Every iteration consumes at least the base hunk, so running
with fuel `c0.length + c1.length` never reaches the fuel-exhaustion branch
(whose error is an artifact of the embedding, not a behavior of the C
code). -/
def make3way_go : Nat → List diff_block → List diff_block → diff3_block →
    Except RunError (List diff3_block)
  | fuel, c0, c1, last_diff3 =>
    match pick_base c0 c1 with
    | none => .ok []
    | some (bt, b, r0, r1) =>
      match fuel with
      | 0 => .error ⟨EXIT_TROUBLE, "unreachable: iteration bound exhausted"⟩
      | fuel + 1 =>
        let s := absorb
          { hwT := bt, hw := b.hiFC
            u0 := if bt = 0 then [b] else [], u1 := if bt = 1 then [b] else []
            c0 := r0, c1 := r1 }
        match using_to_diff3_block s.u0 s.u1 bt s.hwT last_diff3 with
        | none => .error ⟨EXIT_TROUBLE, screwup_msg⟩
        | some tb =>
          match make3way_go fuel s.c0 s.c1 tb with
          | .error e => .error e
          | .ok rest => .ok (tb :: rest)

/-- `make_3way_diff`: combine the two hunk chains into a chain of three-way
blocks, starting the line correspondence from `zero_diff3`; the `fatal` on
a failed block build becomes an `Except.error` carrying `EXIT_TROUBLE` and
the C diagnostic. -/
def make_3way_diff (thread0 thread1 : List diff_block) :
    Except RunError (List diff3_block) :=
  make3way_go (thread0.length + thread1.length) thread0 thread1 zero_diff3

/-! ## Output renderers -/

/-- Bytes of a format-string piece written with `fprintf`/`fputs`. -/
def strBytes (s : String) : List Nat := s.data.map Char.toNat

/-- `DIFF_1ST + k` for `k` in 0..2, as used after remapping. -/
def d3of : Nat → diff_type
  | 0 => DIFF_1ST
  | 1 => DIFF_2ND
  | _ => DIFF_3RD

/-- The remapping `b->correspond == DIFF_ALL ? DIFF_ALL : DIFF_1ST +
rev_mapping[b->correspond - DIFF_1ST]` done by both script renderers. -/
def mapped_type (rev : Nat → Nat) : diff_type → diff_type
  | DIFF_ALL => DIFF_ALL
  | DIFF_1ST => d3of (rev 0)
  | DIFF_2ND => d3of (rev 1)
  | DIFF_3RD => d3of (rev 2)
  | t => t

/-- The renderer flags set during option processing. -/
structure out_flags where
  show_2nd : Bool
  flagging : Bool
  simple_only : Bool
  overlap_only : Bool
  deriving Repr, DecidableEq

/-- The skip/conflict selection switch shared by `output_diff3_edscript` and
`output_diff3_merge`: `none` means the block is skipped (`continue`), and
`some c` processes it with conflict flag `c`. -/
def merge_classify (fl : out_flags) : diff_type → Option Bool
  | DIFF_2ND => if fl.show_2nd then some true else none
  | DIFF_3RD => if fl.overlap_only then none else some false
  | DIFF_ALL => if fl.simple_only then none else some fl.flagging
  | _ => none

/-- The bytes `fwrite` emits for one file of a block: `D_NUMLINES` lines,
each a payload from the block's line array (a null pointer, which the C
code would pass to `fwrite`, contributes nothing here; it never happens
for blocks built by the reconciler). -/
def block_file_bytes (b : diff3_block) (f : Nat) : List Nat :=
  ((List.range (b.numlines f).toNat).map
    (fun i => (((b.lines f).getD i none).getD []))).flatten

/-- Copy one line (through its newline) from the input stream, as the
`getc`/`putc` loop of `output_diff3_merge`; `none` is end-of-file before
the newline, which that loop makes fatal. -/
def copy_line : List Nat → Option (List Nat × List Nat)
  | [] => none
  | c :: rest =>
    if c = 10 then some ([c], rest)
    else
      match copy_line rest with
      | none => none
      | some (l, r) => some (c :: l, r)

/-- Copy `n` lines from the input stream. -/
def copy_lines : Nat → List Nat → Option (List Nat × List Nat)
  | 0, infile => some ([], infile)
  | n + 1, infile =>
    match copy_line infile with
    | none => none
    | some (l, r) =>
      match copy_lines n r with
      | none => none
      | some (ls, r2) => some (l ++ ls, r2)

/-- Discard one line (through its newline) of the input stream; `none` is
end-of-file first. -/
def skip_line : List Nat → Option (List Nat)
  | [] => none
  | c :: rest => if c = 10 then some rest else skip_line rest

/-- Outcome of the line-skipping loop of `output_diff3_merge`. -/
inductive skip_result where
  | ok (rest : List Nat)
  | eofOk
  | shrank
  deriving Repr, DecidableEq

/-- Skip `n` lines of MINE.  On end-of-file, the C loop is fatal if lines
remain to skip or more blocks follow (`if (i1 || b->next)`), and otherwise
returns from the renderer immediately. -/
def skip_lines : Nat → Bool → List Nat → skip_result
  | 0, _, infile => .ok infile
  | n + 1, more, infile =>
    match skip_line infile with
    | some r => skip_lines n more r
    | none => if n ≠ 0 || more then .shrank else .eofOk

/-- The block loop of `output_diff3_merge`: `m` is `mapping`, `rev` is
`rev_mapping`, `linesread` counts MINE lines consumed, and the
accumulated output plus the conflicts-found flag are returned.  Skipped
blocks leave the stream and `linesread` untouched; after the last block the
rest of MINE is copied verbatim. -/
def output_diff3_merge_go (m rev : Nat → Nat) (fl : out_flags) (f0 f1 f2 : String) :
    List diff3_block → Int → List Nat → List Nat → Bool →
    Except RunError (List Nat × Bool)
  | [], _, infile, out, cf => .ok (out ++ infile, cf)
  | b :: rest, linesread, infile, out, cf =>
    let t := mapped_type rev b.correspond
    match merge_classify fl t with
    | none => output_diff3_merge_go m rev fl f0 f1 f2 rest linesread infile out cf
    | some conflict =>
      let i0 : Int := b.lo0 - linesread - 1
      match copy_lines i0.toNat infile with
      | none => .error ⟨EXIT_TROUBLE, "input file shrank"⟩
      | some (copied, in1) =>
        let out1 := out ++ copied
        let out2 := if conflict && t = DIFF_ALL then
            out1 ++ strBytes ("<<<<<<< " ++ f0 ++ "\n") ++ block_file_bytes b (m 0)
          else out1
        let out3 := if conflict && fl.show_2nd then
            out2 ++ strBytes ((if t = DIFF_ALL then "||||||| " else "<<<<<<< ") ++ f1 ++ "\n")
                 ++ block_file_bytes b (m 1)
          else out2
        let out4 := if conflict then out3 ++ strBytes "=======\n" else out3
        let out5 := out4 ++ block_file_bytes b (m 2)
        let out6 := if conflict then out5 ++ strBytes (">>>>>>> " ++ f2 ++ "\n") else out5
        let cf1 := cf || conflict
        let i1 : Int := b.hi0 - b.lo0 + 1
        match skip_lines i1.toNat (!rest.isEmpty) in1 with
        | .shrank => .error ⟨EXIT_TROUBLE, "input file shrank"⟩
        | .eofOk => .ok (out6, cf1)
        | .ok in2 =>
          output_diff3_merge_go m rev fl f0 f1 f2 rest (linesread + i0 + i1) in2 out6 cf1

/-- `output_diff3_merge` over a byte stream MINE. -/
def output_diff3_merge (m rev : Nat → Nat) (fl : out_flags) (f0 f1 f2 : String)
    (bs : List diff3_block) (mine : List Nat) : Except RunError (List Nat × Bool) :=
  output_diff3_merge_go m rev fl f0 f1 f2 bs 0 mine [] false

/-- The conflicts-found aggregation of `output_diff3_edscript`: a block
contributes exactly when its switch selects it with `conflict` true (the
list reversal done for ed scripts does not change the aggregate).  Only
this aggregate of the ed-script renderer is modelled; its text output is
not needed by any claim. -/
def output_diff3_edscript_conflicts (rev : Nat → Nat) (fl : out_flags)
    (bs : List diff3_block) : Bool :=
  bs.any (fun b => (merge_classify fl (mapped_type rev b.correspond)).getD false)

/-- One emitted element of the descriptive renderer `output_diff3`:
the `====` separator (with the 1-based odd file number when not
`DIFF_ALL`), a `k:RANGE` control line for external file `k` (its normal-diff
format is a function of `lowt` and `hight` as in the C `switch`), one
line of content for file `k`, or the "No newline at end of file" marker. -/
inductive out_item where
  | sep (tag : Option Nat)
  | header (filenum : Nat) (lowt hight : Int)
  | content (filenum : Nat) (line : Option Payload)
  | no_newline (filenum : Nat)
  deriving Repr, DecidableEq

/-- The per-file section of `output_diff3` for external file index `i`
(0-based): the control line always, then — unless `i == dontprint` or the
range is empty — the file's lines and, when the last line lacks a trailing
newline, the no-newline marker. -/
def file_section (m : Nat → Nat) (b : diff3_block) (dontprint i : Nat) : List out_item :=
  let realfile := m i
  let lowt := b.lo realfile
  let hight := b.hi realfile
  let n : Nat := (hight - lowt + 1).toNat
  out_item.header (i + 1) lowt hight ::
    (if i = dontprint then []
     else if lowt ≤ hight then
       (List.range n).map (fun j => out_item.content (i + 1) ((b.lines realfile).getD j none))
         ++ (if (((b.lines realfile).getD (n - 1) none).getD []).getLast? ≠ some 10 then
               [out_item.no_newline (i + 1)]
             else [])
     else [])

/-- One block of the descriptive renderer: separator, then the three file
sections in order 1,2,3 — or 1,3,2 via `skew_increment` when the odd file
is external file 2.  `dontprint` is external index 1 when the odd file is
external file 1, otherwise external index 0; for `DIFF_ALL` it is 3 so all
files print.  An unexpected block type is the `fatal` path. -/
def output_diff3_block (m rev : Nat → Nat) (b : diff3_block) :
    Except RunError (List out_item) :=
  match b.correspond with
  | DIFF_ALL =>
    .ok (out_item.sep none ::
      ([0, 1, 2].map (file_section m b 3)).flatten)
  | DIFF_1ST | DIFF_2ND | DIFF_3RD =>
    let oddoneout := rev (match b.correspond with
      | DIFF_1ST => 0
      | DIFF_2ND => 1
      | _ => 2)
    let dontprint : Nat := if oddoneout = 0 then 1 else 0
    let order : List Nat := if oddoneout = 1 then [0, 2, 1] else [0, 1, 2]
    .ok (out_item.sep (some (oddoneout + 1)) ::
      (order.map (file_section m b dontprint)).flatten)
  | _ => .error ⟨EXIT_TROUBLE, "internal error: invalid diff type passed to output"⟩

/-- `output_diff3`: render every block in order. -/
def output_diff3 (m rev : Nat → Nat) : List diff3_block → Except RunError (List out_item)
  | [] => .ok []
  | b :: rest =>
    match output_diff3_block m rev b with
    | .error e => .error e
    | .ok items =>
      match output_diff3 m rev rest with
      | .error e => .error e
      | .ok more => .ok (items ++ more)

/-! ## Provider exit-status classification (`read_diff`) -/

/-- Termination of the diff-provider subprocess as observed through
`waitpid`: a normal exit with a status, or anything else (`WIFEXITED`
false). -/
inductive wait_status where
  | exited (code : Nat)
  | abnormal
  deriving Repr, DecidableEq

/-- `INT_MAX`, the sentinel status `read_diff` uses for abnormal
termination. -/
def INT_MAX : Nat := 2147483647

/-- The diagnostic chosen by `read_diff` for a trouble status. -/
def subsid_fail_msg (status : Nat) : String :=
  if status = 126 then "subsidiary program diff could not be invoked"
  else if status = 127 then "subsidiary program diff not found"
  else if status = INT_MAX then "subsidiary program diff failed"
  else "subsidiary program diff failed (exit status " ++ toString status ++ ")"

/-- The status classification at the end of `read_diff`: statuses 0 and 1
are normal; `EXIT_TROUBLE <= status` (including the `INT_MAX` sentinel for
abnormal termination) aborts with `EXIT_TROUBLE` and the message above. -/
def read_diff_status (w : wait_status) : Except RunError Unit :=
  let status := match w with
    | .exited n => n
    | .abnormal => INT_MAX
  if EXIT_TROUBLE ≤ status then .error ⟨EXIT_TROUBLE, subsid_fail_msg status⟩
  else .ok ()

/-! ## Option processing and the `main` pipeline -/

/-- A parsed command-line option of diff3. -/
inductive opt where
  | oa
  | oA
  | ox
  | o3
  | oi
  | om
  | oX
  | oE
  | oe
  | oT
  | ostripcr
  | oL (label : String)
  | odiffprogram (s : String)
  deriving Repr, DecidableEq

/-- The `incompat` bit assigned to each mode switch, from
`enum { OPTION_3, OPTION_A, OPTION_E, OPTION_X, OPTION_e, OPTION_x }`. -/
def mode_bit : opt → Option Nat
  | .o3 => some 0
  | .oA => some 1
  | .oE => some 2
  | .oX => some 3
  | .oe => some 4
  | .ox => some 5
  | _ => none

/-- The mutable option state accumulated by `main`'s `getopt_long` loop. -/
structure opt_state where
  text : Bool
  show_2nd : Bool
  flagging : Bool
  overlap_only : Bool
  simple_only : Bool
  finalwrite : Bool
  merge : Bool
  initial_tab : Bool
  strip_cr : Bool
  incompat : Nat
  tags : List String
  deriving Repr, DecidableEq

/-- The option state before any option is seen. -/
def init_opt_state : opt_state :=
  { text := false, show_2nd := false, flagging := false, overlap_only := false
    simple_only := false, finalwrite := false, merge := false, initial_tab := false
    strip_cr := false, incompat := 0, tags := [] }

/-- One arm of the `switch (c)` in `main`.  `-L` beyond the third is the
`try_help ("too many file label options")` abort.  (In this source `-X`
sets only `overlap_only`, not `flagging`.) -/
def apply_opt (st : opt_state) : opt → Except RunError opt_state
  | .oa => .ok { st with text := true }
  | .oA => .ok { st with show_2nd := true, flagging := true,
                         incompat := st.incompat ||| (1 <<< 1) }
  | .ox => .ok { st with overlap_only := true, incompat := st.incompat ||| (1 <<< 5) }
  | .o3 => .ok { st with simple_only := true, incompat := st.incompat ||| (1 <<< 0) }
  | .oi => .ok { st with finalwrite := true }
  | .om => .ok { st with merge := true }
  | .oX => .ok { st with overlap_only := true, incompat := st.incompat ||| (1 <<< 3) }
  | .oE => .ok { st with flagging := true, incompat := st.incompat ||| (1 <<< 2) }
  | .oe => .ok { st with incompat := st.incompat ||| (1 <<< 4) }
  | .oT => .ok { st with initial_tab := true }
  | .ostripcr => .ok { st with strip_cr := true }
  | .oL s =>
    if st.tags.length < 3 then .ok { st with tags := st.tags ++ [s] }
    else .error ⟨EXIT_TROUBLE, "too many file label options"⟩
  | .odiffprogram _ => .ok st

/-- The whole `getopt_long` loop. -/
def process_opts : List opt → opt_state → Except RunError opt_state
  | [], st => .ok st
  | o :: rest, st =>
    match apply_opt st o with
    | .error e => .error e
    | .ok st1 => process_opts rest st1

/-- The option configuration after `main`'s post-loop fixups. -/
structure config where
  edscript : Bool
  merge : Bool
  show_2nd : Bool
  flagging : Bool
  overlap_only : Bool
  simple_only : Bool
  finalwrite : Bool
  initial_tab : Bool
  text : Bool
  tags : List String
  deriving Repr, DecidableEq

/-- Option processing plus the compatibility checks of `main`: `edscript`,
implied `-A` for a bare `-m`, then the `incompat & (incompat - 1)` /
`finalwrite & merge` / `tag_count && !flagging` test that aborts with
"incompatible options" before any file is diffed. -/
def check_options (opts : List opt) : Except RunError config :=
  match process_opts opts init_opt_state with
  | .error e => .error e
  | .ok st =>
    let edscript := st.incompat ≠ 0 && !st.merge
    let show2 := st.show_2nd || (st.incompat = 0 && st.merge)
    let flg := st.flagging || (st.incompat = 0 && st.merge)
    if st.incompat &&& (st.incompat - 1) ≠ 0 || (st.finalwrite && st.merge)
        || (!st.tags.isEmpty && !flg) then
      .error ⟨EXIT_TROUBLE, "incompatible options"⟩
    else
      .ok { edscript := edscript, merge := st.merge, show_2nd := show2, flagging := flg
            overlap_only := st.overlap_only, simple_only := st.simple_only
            finalwrite := st.finalwrite, initial_tab := st.initial_tab
            text := st.text, tags := st.tags }

/-- The file-number permutation of `main`: the common file is
`2 - (edscript | merge)`, giving `mapping = {0, 3 - common, common}`.
Without a `-` operand this is the identity for the descriptive mode and
the involution swapping 1 and 2 for ed-script and merge modes, so
`rev_mapping` coincides with `mapping`. -/
def mapping_of (cfg : config) : Nat → Nat :=
  if cfg.edscript || cfg.merge then
    fun i => if i = 1 then 2 else if i = 2 then 1 else i
  else fun i => i

/-- The `main` pipeline after argument handling: check options, obtain both
pairwise diffs from the provider (`thread1` first, as in the C), reconcile,
render in the selected mode, and exit with the conflicts-found flag.  The
provider is an oracle `true ↦ thread1, false ↦ thread0` standing for
`process_diff`; the result is the process exit status and the merge-mode
output bytes (the two script renderers' text is not modelled, only their
conflict aggregation). -/
def diff3_main (opts : List opt) (provider : Bool → Except RunError (List diff_block))
    (mine : List Nat) (f0 f1 f2 : String) : Except RunError (Nat × List Nat) :=
  match check_options opts with
  | .error e => .error e
  | .ok cfg =>
    match provider true with
    | .error e => .error e
    | .ok t1 =>
      match provider false with
      | .error e => .error e
      | .ok t0 =>
        match make_3way_diff t0 t1 with
        | .error e => .error e
        | .ok bs =>
          let m := mapping_of cfg
          let fl : out_flags :=
            ⟨cfg.show_2nd, cfg.flagging, cfg.simple_only, cfg.overlap_only⟩
          if cfg.edscript then
            let cf := output_diff3_edscript_conflicts m fl bs
            .ok (if cf then 1 else 0, [])
          else if cfg.merge then
            match output_diff3_merge m m fl f0 f1 f2 bs mine with
            | .error e => .error e
            | .ok (out, cf) => .ok (if cf then 1 else 0, out)
          else
            match output_diff3 m m bs with
            | .error e => .error e
            | .ok _items => .ok (0, [])

/-! ## Specification-side definitions

These restate parts of the specification in its own words, to be compared
with the definitions above that were translated from the source. -/

/-- Base-thread choice as the spec words it: the non-null thread if one
cursor is exhausted, otherwise the thread whose current hunk has the
smaller low line in the common file, thread 0 on a tie. -/
def base_thread_spec : List diff_block → List diff_block → Option Nat
  | [], [] => none
  | _ :: _, [] => some 0
  | [], _ :: _ => some 1
  | h0 :: _, h1 :: _ =>
    some (if h0.loFC < h1.loFC then 0 else if h1.loFC < h0.loFC then 1 else 0)

/-- The absorb loop as the spec words it: look at the thread other than the
high-water thread; while its current hunk exists and its low common line is
at most the high-water mark plus one, absorb it (append to that thread's
using list, advance that cursor), and whenever its high common line exceeds
the high-water mark, update the mark to it and flip the high-water
thread. -/
def absorb_spec_go : Nat → loop_state → loop_state
  | 0, s => s
  | fuel + 1, s =>
    let other := 1 - s.hwT
    match (if other = 0 then s.c0 else s.c1) with
    | [] => s
    | od :: rest =>
      if od.loFC ≤ s.hw + 1 then
        let absorbed : loop_state :=
          { hwT := s.hwT, hw := s.hw
            u0 := if other = 0 then s.u0 ++ [od] else s.u0
            u1 := if other = 0 then s.u1 else s.u1 ++ [od]
            c0 := if other = 0 then rest else s.c0
            c1 := if other = 0 then s.c1 else rest }
        absorb_spec_go fuel
          (if s.hw < od.hiFC then { absorbed with hw := od.hiFC, hwT := 1 - s.hwT }
           else absorbed)
      else s

/-- A hunk whose common range is a range: inclusive and non-empty, or the
empty point-of-insertion `hi = lo - 1`. -/
def hunk_wf (h : diff_block) : Prop := h.loFC ≤ h.hiFC + 1

/-- The validity condition exactly as claim C2 states it: hunks of a chain
are in strictly increasing, non-overlapping common order. -/
def inc_chain (l : List diff_block) : Prop :=
  (∀ h ∈ l, hunk_wf h) ∧ List.Chain' (fun a b => a.hiFC < b.loFC) l

/-- The stronger validity condition a pairwise diff actually guarantees:
consecutive hunks are separated by at least one unchanged common line
(`lo (next) ≥ hi (prev) + 2`). -/
def sep_chain (l : List diff_block) : Prop :=
  (∀ h ∈ l, hunk_wf h) ∧ List.Chain' (fun a b => a.hiFC + 2 ≤ b.loFC) l

/-- Common line `g` is covered by hunk `h`. -/
def covers (h : diff_block) (g : Int) : Prop := h.loFC ≤ g ∧ g ≤ h.hiFC

/-- The separation property of claim C2 over an output chain: each pair of
successive blocks has a common line strictly between them that no hunk of
`hs` covers. -/
def gaps_ok (hs : List diff_block) : List diff3_block → Prop
  | b1 :: b2 :: rest =>
    (∃ g : Int, b1.hi2 < g ∧ g < b2.lo2 ∧ ∀ h ∈ hs, ¬ covers h g) ∧
      gaps_ok hs (b2 :: rest)
  | _ => True

/-- Does the option list contain a given option? -/
def has_opt (o : opt) : List opt → Bool
  | [] => false
  | x :: rest => if x = o then true else has_opt o rest

/-- Does the option list contain some `-L` label? -/
def has_label : List opt → Bool
  | [] => false
  | .oL _ :: _ => true
  | _ :: rest => has_label rest

/-- The union of the `incompat` bits of the mode switches present. -/
def mode_mask : List opt → Nat
  | [] => 0
  | o :: rest => (match mode_bit o with | some k => 1 <<< k | none => 0) ||| mode_mask rest

/-- More than one distinct mode switch among `-A -e -E -x -X -3` appears. -/
def two_mode_switches (opts : List opt) : Prop :=
  ∃ o1 o2 k1 k2, o1 ∈ opts ∧ o2 ∈ opts ∧ mode_bit o1 = some k1 ∧ mode_bit o2 = some k2 ∧
    k1 ≠ k2

/-- A conflict-bracketing flag is in effect, in the claim's sense: the
renderers bracket conflicts exactly when `flagging` is set after option
fixups, i.e. `-A` or `-E` was given, or a bare `-m` implied `-A`. -/
def bracketing_in_effect (opts : List opt) : Bool :=
  has_opt .oA opts || has_opt .oE opts ||
    (decide (mode_mask opts = 0) && has_opt .om opts)

/-! ## Theorems -/

theorem pick_base_agrees (c0 c1 : List diff_block) :
    (pick_base c0 c1).map (fun p => p.1) = base_thread_spec c0 c1 := by
  cases c0 with
  | nil => cases c1 <;> rfl
  | cons h0 r0 =>
    cases c1 with
    | nil => rfl
    | cons h1 r1 =>
      simp only [pick_base, base_thread_spec]
      split_ifs <;> first | (exfalso; omega) | simp

theorem absorb_agrees (fuel : Nat) (s : loop_state) (h : s.hwT ≤ 1) :
    absorb_go fuel s = absorb_spec_go fuel s := by
  induction fuel generalizing s with
  | zero => rfl
  | succ n ih =>
    by_cases h0 : s.hwT = 0
    · cases hc : s.c1 with
      | nil => simp [absorb_go, absorb_spec_go, h0, hc]
      | cons od rest =>
        by_cases hcond : od.loFC ≤ s.hw + 1
        · by_cases hflip : s.hw < od.hiFC
          · simp [absorb_go, absorb_spec_go, h0, hc, hcond, hflip, ih]
          · simp [absorb_go, absorb_spec_go, h0, hc, hcond, hflip, ih]
        · simp [absorb_go, absorb_spec_go, h0, hc, hcond]
    · have h1 : s.hwT = 1 := by omega
      cases hc : s.c0 with
      | nil => simp [absorb_go, absorb_spec_go, h1, hc]
      | cons od rest =>
        by_cases hcond : od.loFC ≤ s.hw + 1
        · by_cases hflip : s.hw < od.hiFC
          · simp [absorb_go, absorb_spec_go, h1, hc, hcond, hflip, ih]
          · simp [absorb_go, absorb_spec_go, h1, hc, hcond, hflip, ih]
        · simp [absorb_go, absorb_spec_go, h1, hc, hcond]

/-- C1: each reconciler iteration selects as base thread the thread whose
current hunk has the smaller low common line (the non-null one if a cursor
is exhausted, thread 0 on a tie), and the absorb loop takes the other
thread's current hunk exactly when it exists and its low common line is at
most the high-water mark plus one, raising the mark to the absorbed hunk's
high line and flipping the high-water thread whenever that exceeds it: the
source-translated step agrees with the spec-worded step. -/
theorem claim_C1 (c0 c1 : List diff_block) (fuel : Nat) (s : loop_state)
    (h : s.hwT ≤ 1) :
    (pick_base c0 c1).map (fun p => p.1) = base_thread_spec c0 c1 ∧
      absorb_go fuel s = absorb_spec_go fuel s :=
  ⟨pick_base_agrees c0 c1, absorb_agrees fuel s h⟩

theorem claim_C1_witness :
    ((⟨0, 3, [], [], [], [⟨5, 6, 4, 5, [[97]], [[98]]⟩]⟩ : loop_state).hwT ≤ 1) ∧
      ((pick_base [] [⟨5, 6, 4, 5, [[97]], [[98]]⟩]).map (fun p => p.1) =
          base_thread_spec [] [⟨5, 6, 4, 5, [[97]], [[98]]⟩] ∧
        absorb_go 1 ⟨0, 3, [], [], [], [⟨5, 6, 4, 5, [[97]], [[98]]⟩]⟩ =
          absorb_spec_go 1 ⟨0, 3, [], [], [], [⟨5, 6, 4, 5, [[97]], [[98]]⟩]⟩) :=
  ⟨by decide, claim_C1 _ _ 1 _ (by decide)⟩

theorem compare_line_list_iff (n : Nat) (l1 l2 : List (Option Payload)) :
    compare_line_list l1 l2 n = true ↔
      ∀ j < n, ∃ p, l1[j]? = some (some p) ∧ l2[j]? = some (some p) := by
  induction n generalizing l1 l2 with
  | zero => simp [compare_line_list]
  | succ m ih =>
    cases l1 with
    | nil =>
      constructor
      · intro hF; simp [compare_line_list] at hF
      · intro hR
        obtain ⟨p, hp, -⟩ := hR 0 (by omega)
        simp at hp
    | cons o1 t1 =>
      cases l2 with
      | nil =>
        constructor
        · intro hF; cases o1 <;> simp [compare_line_list] at hF
        · intro hR
          obtain ⟨p, -, hq⟩ := hR 0 (by omega)
          simp at hq
      | cons o2 t2 =>
        cases o1 with
        | none =>
          constructor
          · intro hF; simp [compare_line_list] at hF
          · intro hR
            obtain ⟨p, hp, -⟩ := hR 0 (by omega)
            simp at hp
        | some p =>
          cases o2 with
          | none =>
            constructor
            · intro hF; simp [compare_line_list] at hF
            · intro hR
              obtain ⟨q, -, hq⟩ := hR 0 (by omega)
              simp at hq
          | some q =>
            simp only [compare_line_list, Bool.and_eq_true, decide_eq_true_eq, ih]
            constructor
            · rintro ⟨rfl, hrec⟩ j hj
              cases j with
              | zero => exact ⟨p, by simp, by simp⟩
              | succ k =>
                obtain ⟨r, h1, h2⟩ := hrec k (by omega)
                exact ⟨r, by simpa using h1, by simpa using h2⟩
            · intro hR
              obtain ⟨r, h1, h2⟩ := hR 0 (by omega)
              simp only [List.getElem?_cons_zero, Option.some.injEq] at h1 h2
              refine ⟨h1.trans h2.symm, fun k hk => ?_⟩
              obtain ⟨r', h1', h2'⟩ := hR (k + 1) (by omega)
              exact ⟨r', by simpa using h1', by simpa using h2'⟩

/-- Extraction of the facts a successful `using_to_diff3_block` guarantees:
the window endpoints come from the low thread's first hunk and the high
thread's last hunk, the side ranges from `thread_range`, and the block kind
from using-list emptiness and the file0/file1 comparison. -/
theorem utd_some_spec (u0 u1 : List diff_block) (lt ht : Nat) (last_diff3 : diff3_block)
    (b : diff3_block) (h : using_to_diff3_block u0 u1 lt ht last_diff3 = some b) :
    ∃ lf ll,
      (if lt = 0 then u0 else u1).head? = some lf ∧
      (if ht = 0 then u0 else u1).getLast? = some ll ∧
      b.lo2 = lf.loFC ∧ b.hi2 = ll.hiFC ∧
      (b.lo0, b.hi0) = thread_range u0 lf.loFC ll.hiFC last_diff3 0 ∧
      (b.lo1, b.hi1) = thread_range u1 lf.loFC ll.hiFC last_diff3 1 ∧
      b.correspond =
        (if u0.isEmpty then DIFF_2ND
         else if u1.isEmpty then DIFF_1ST
         else if b.hi0 - b.lo0 + 1 ≠ b.hi1 - b.lo1 + 1
             || !compare_line_list b.lines0 b.lines1 (b.hi0 - b.lo0 + 1).toNat then DIFF_ALL
         else DIFF_3RD) := by
  unfold using_to_diff3_block at h
  simp only [Option.bind_eq_some, Option.some.injEq] at h
  obtain ⟨lf, hlf, ll, hll, ca, hca, c, hc, s0, hs0, s1, hs1, hb⟩ := h
  subst hb
  exact ⟨lf, ll, hlf, hll, rfl, rfl, rfl, rfl, rfl⟩

/-- C3: for every successfully built block, the kind is `DIFF_2ND`
(OnlyYours) exactly when the thread-0 using list is empty, `DIFF_1ST`
(OnlyMine) exactly when the thread-1 using list is empty, and with both
non-empty it is `DIFF_3RD` (SameAsCommon3rd) iff the MINE and YOURS ranges
have equal length and every corresponding payload is present and
byte-for-byte equal, else `DIFF_ALL`. -/
theorem claim_C3 (u0 u1 : List diff_block) (lt ht : Nat) (last_diff3 : diff3_block)
    (b : diff3_block) (h : using_to_diff3_block u0 u1 lt ht last_diff3 = some b) :
    (b.correspond = DIFF_2ND ↔ u0 = []) ∧
      (b.correspond = DIFF_1ST ↔ u1 = []) ∧
      (u0 ≠ [] → u1 ≠ [] →
        (b.correspond = DIFF_3RD ↔
          (b.hi0 - b.lo0 = b.hi1 - b.lo1 ∧
            ∀ j < (b.hi0 - b.lo0 + 1).toNat,
              ∃ p, b.lines0[j]? = some (some p) ∧ b.lines1[j]? = some (some p)))) ∧
      (u0 ≠ [] → u1 ≠ [] →
        (b.correspond = DIFF_ALL ↔
          ¬(b.hi0 - b.lo0 = b.hi1 - b.lo1 ∧
            ∀ j < (b.hi0 - b.lo0 + 1).toNat,
              ∃ p, b.lines0[j]? = some (some p) ∧ b.lines1[j]? = some (some p)))) := by
  obtain ⟨lf, ll, hlf, hll, -, -, -, -, hcorr⟩ :=
    utd_some_spec u0 u1 lt ht last_diff3 b h
  have hne : ¬(u0 = [] ∧ u1 = []) := by
    rintro ⟨rfl, rfl⟩
    rw [ite_self] at hlf
    simp at hlf
  by_cases h0 : u0 = []
  · have h1 : u1 ≠ [] := fun hc => hne ⟨h0, hc⟩
    rw [h0] at hcorr
    simp only [List.isEmpty_nil, if_pos rfl] at hcorr
    refine ⟨by simp [hcorr, h0], by simp [hcorr, h1], fun hc _ => absurd h0 hc,
      fun hc _ => absurd h0 hc⟩
  · by_cases h1 : u1 = []
    · rw [h1] at hcorr
      simp only [List.isEmpty_nil, List.isEmpty_eq_true, h0, if_neg h0, if_false,
        if_pos rfl] at hcorr
      have hcorr2 : b.correspond = DIFF_1ST := by
        rw [hcorr]
        simp [List.isEmpty_eq_true, h0]
      refine ⟨by simp [hcorr2, h0], by simp [hcorr2, h1], fun _ hc => absurd h1 hc,
        fun _ hc => absurd h1 hc⟩
    · have he0 : u0.isEmpty = false := by
        cases u0 with
        | nil => exact absurd rfl h0
        | cons a l => rfl
      have he1 : u1.isEmpty = false := by
        cases u1 with
        | nil => exact absurd rfl h1
        | cons a l => rfl
      rw [he0, he1] at hcorr
      simp only [Bool.false_eq_true, if_false] at hcorr
      by_cases hall : (decide (b.hi0 - b.lo0 + 1 ≠ b.hi1 - b.lo1 + 1)
          || !compare_line_list b.lines0 b.lines1 (b.hi0 - b.lo0 + 1).toNat) = true
      · rw [if_pos hall] at hcorr
        have hnc : ¬(b.hi0 - b.lo0 = b.hi1 - b.lo1 ∧
            ∀ j < (b.hi0 - b.lo0 + 1).toNat,
              ∃ p, b.lines0[j]? = some (some p) ∧ b.lines1[j]? = some (some p)) := by
          rintro ⟨hlen, hall2⟩
          have hcmp : compare_line_list b.lines0 b.lines1 (b.hi0 - b.lo0 + 1).toNat = true :=
            (compare_line_list_iff _ _ _).mpr hall2
          have hnl : b.hi0 - b.lo0 + 1 = b.hi1 - b.lo1 + 1 := by omega
          rw [hcmp, hnl] at hall
          simp at hall
        refine ⟨by simp [hcorr, h0], by simp [hcorr, h1], fun _ _ => ?_, fun _ _ => ?_⟩
        · rw [hcorr]
          simp only [reduceCtorEq, false_iff]
          exact hnc
        · rw [hcorr]
          exact ⟨fun _ => hnc, fun _ => rfl⟩
      · rw [if_neg hall] at hcorr
        rw [Bool.not_eq_true, Bool.or_eq_false_iff] at hall
        obtain ⟨hlen, hcmp⟩ := hall
        rw [decide_eq_false_iff_not, not_not] at hlen
        rw [Bool.not_eq_false'] at hcmp
        have hc3 : b.hi0 - b.lo0 = b.hi1 - b.lo1 ∧
            ∀ j < (b.hi0 - b.lo0 + 1).toNat,
              ∃ p, b.lines0[j]? = some (some p) ∧ b.lines1[j]? = some (some p) :=
          ⟨by omega, (compare_line_list_iff _ _ _).mp hcmp⟩
        refine ⟨by simp [hcorr, h0], by simp [hcorr, h1], fun _ _ => ?_, fun _ _ => ?_⟩
        · rw [hcorr]
          simp only [true_iff]
          exact hc3
        · rw [hcorr]
          simp only [reduceCtorEq, false_iff, not_not]
          exact hc3

theorem claim_C3_witness :
    using_to_diff3_block [⟨1, 1, 1, 1, [[88, 10]], [[120, 10]]⟩]
        [⟨1, 1, 1, 1, [[88, 10]], [[120, 10]]⟩] 0 0 zero_diff3 =
      some ⟨DIFF_3RD, 1, 1, 1, 1, 1, 1, [some [88, 10]], [some [88, 10]],
        [some [120, 10]]⟩ ∧
      (((⟨DIFF_3RD, 1, 1, 1, 1, 1, 1, [some [88, 10]], [some [88, 10]],
            [some [120, 10]]⟩ : diff3_block).correspond = DIFF_2ND ↔
          [(⟨1, 1, 1, 1, [[88, 10]], [[120, 10]]⟩ : diff_block)] = []) ∧
        ((⟨DIFF_3RD, 1, 1, 1, 1, 1, 1, [some [88, 10]], [some [88, 10]],
            [some [120, 10]]⟩ : diff3_block).correspond = DIFF_1ST ↔
          [(⟨1, 1, 1, 1, [[88, 10]], [[120, 10]]⟩ : diff_block)] = []) ∧
        ([(⟨1, 1, 1, 1, [[88, 10]], [[120, 10]]⟩ : diff_block)] ≠ [] →
          [(⟨1, 1, 1, 1, [[88, 10]], [[120, 10]]⟩ : diff_block)] ≠ [] →
          ((⟨DIFF_3RD, 1, 1, 1, 1, 1, 1, [some [88, 10]], [some [88, 10]],
              [some [120, 10]]⟩ : diff3_block).correspond = DIFF_3RD ↔
            ((1 : Int) - 1 = 1 - 1 ∧
              ∀ j < ((1 : Int) - 1 + 1).toNat,
                ∃ p, [some [88, 10]][j]? = some (some p) ∧
                  [some [88, 10]][j]? = some (some p)))) ∧
        ([(⟨1, 1, 1, 1, [[88, 10]], [[120, 10]]⟩ : diff_block)] ≠ [] →
          [(⟨1, 1, 1, 1, [[88, 10]], [[120, 10]]⟩ : diff_block)] ≠ [] →
          ((⟨DIFF_3RD, 1, 1, 1, 1, 1, 1, [some [88, 10]], [some [88, 10]],
              [some [120, 10]]⟩ : diff3_block).correspond = DIFF_ALL ↔
            ¬((1 : Int) - 1 = 1 - 1 ∧
              ∀ j < ((1 : Int) - 1 + 1).toNat,
                ∃ p, [some [88, 10]][j]? = some (some p) ∧
                  [some [88, 10]][j]? = some (some p))))) :=
  ⟨by decide,
    claim_C3 [⟨1, 1, 1, 1, [[88, 10]], [[120, 10]]⟩]
      [⟨1, 1, 1, 1, [[88, 10]], [[120, 10]]⟩] 0 0 zero_diff3
      ⟨DIFF_3RD, 1, 1, 1, 1, 1, 1, [some [88, 10]], [some [88, 10]], [some [120, 10]]⟩
      (by decide)⟩

/-- C5: the MINE/YOURS ranges of a block map the window endpoints through
the first/last hunk's common-to-other-side offset when the thread's using
list is non-empty, and otherwise interpolate both endpoints off the bottom
of the previously emitted block; the synthetic starting block has all its
ranges at line 0. -/
theorem claim_C5 (u0 u1 : List diff_block) (lt ht : Nat) (last_diff3 : diff3_block)
    (b : diff3_block) (h : using_to_diff3_block u0 u1 lt ht last_diff3 = some b) :
    (zero_diff3.lo0 = 0 ∧ zero_diff3.hi0 = 0 ∧ zero_diff3.lo1 = 0 ∧ zero_diff3.hi1 = 0 ∧
        zero_diff3.lo2 = 0 ∧ zero_diff3.hi2 = 0) ∧
      (u0 = [] →
        b.lo0 = b.lo2 - last_diff3.hi2 + last_diff3.hi0 ∧
          b.hi0 = b.hi2 - last_diff3.hi2 + last_diff3.hi0) ∧
      (u1 = [] →
        b.lo1 = b.lo2 - last_diff3.hi2 + last_diff3.hi1 ∧
          b.hi1 = b.hi2 - last_diff3.hi2 + last_diff3.hi1) ∧
      (∀ f l, u0.head? = some f → u0.getLast? = some l →
        b.lo0 = b.lo2 - f.loFC + f.loFO ∧ b.hi0 = b.hi2 - l.hiFC + l.hiFO) ∧
      (∀ f l, u1.head? = some f → u1.getLast? = some l →
        b.lo1 = b.lo2 - f.loFC + f.loFO ∧ b.hi1 = b.hi2 - l.hiFC + l.hiFO) := by
  obtain ⟨lf, ll, hlf, hll, hlo2, hhi2, hr0, hr1, -⟩ :=
    utd_some_spec u0 u1 lt ht last_diff3 b h
  have hr0' := hr0
  have hr1' := hr1
  refine ⟨⟨rfl, rfl, rfl, rfl, rfl, rfl⟩, ?_, ?_, ?_, ?_⟩
  · intro h0
    rw [h0] at hr0
    simp only [thread_range, List.head?_nil, List.getLast?_nil, Prod.mk.injEq] at hr0
    obtain ⟨e1, e2⟩ := hr0
    constructor
    · rw [e1, hlo2]; rfl
    · rw [e2, hhi2]; rfl
  · intro h1
    rw [h1] at hr1
    simp only [thread_range, List.head?_nil, List.getLast?_nil, Prod.mk.injEq] at hr1
    obtain ⟨e1, e2⟩ := hr1
    constructor
    · rw [e1, hlo2]; rfl
    · rw [e2, hhi2]; rfl
  · intro f l hf hl
    rw [thread_range, hf, hl] at hr0'
    simp only [Prod.mk.injEq] at hr0'
    obtain ⟨e1, e2⟩ := hr0'
    exact ⟨by rw [e1, hlo2], by rw [e2, hhi2]⟩
  · intro f l hf hl
    rw [thread_range, hf, hl] at hr1'
    simp only [Prod.mk.injEq] at hr1'
    obtain ⟨e1, e2⟩ := hr1'
    exact ⟨by rw [e1, hlo2], by rw [e2, hhi2]⟩

theorem claim_C5_witness :
    using_to_diff3_block [⟨1, 1, 1, 1, [[88, 10]], [[120, 10]]⟩] [] 0 0 zero_diff3 =
      some ⟨DIFF_1ST, 1, 1, 1, 1, 1, 1, [some [88, 10]], [some [120, 10]],
        [some [120, 10]]⟩ ∧
      ((zero_diff3.lo0 = 0 ∧ zero_diff3.hi0 = 0 ∧ zero_diff3.lo1 = 0 ∧
          zero_diff3.hi1 = 0 ∧ zero_diff3.lo2 = 0 ∧ zero_diff3.hi2 = 0) ∧
        ([(⟨1, 1, 1, 1, [[88, 10]], [[120, 10]]⟩ : diff_block)] = [] →
          (1 : Int) = 1 - zero_diff3.hi2 + zero_diff3.hi0 ∧
            (1 : Int) = 1 - zero_diff3.hi2 + zero_diff3.hi0) ∧
        (([] : List diff_block) = [] →
          (1 : Int) = 1 - zero_diff3.hi2 + zero_diff3.hi1 ∧
            (1 : Int) = 1 - zero_diff3.hi2 + zero_diff3.hi1) ∧
        (∀ f l, [(⟨1, 1, 1, 1, [[88, 10]], [[120, 10]]⟩ : diff_block)].head? = some f →
          [(⟨1, 1, 1, 1, [[88, 10]], [[120, 10]]⟩ : diff_block)].getLast? = some l →
          (1 : Int) = 1 - f.loFC + f.loFO ∧ (1 : Int) = 1 - l.hiFC + l.hiFO) ∧
        (∀ f l, ([] : List diff_block).head? = some f →
          ([] : List diff_block).getLast? = some l →
          (1 : Int) = 1 - f.loFC + f.loFO ∧ (1 : Int) = 1 - l.hiFC + l.hiFO)) :=
  ⟨by decide,
    claim_C5 [⟨1, 1, 1, 1, [[88, 10]], [[120, 10]]⟩] [] 0 0 zero_diff3
      ⟨DIFF_1ST, 1, 1, 1, 1, 1, 1, [some [88, 10]], [some [120, 10]], [some [120, 10]]⟩
      (by decide)⟩

theorem claim_C4_counterexample :
    make_3way_diff [⟨1, 1, 1, 1, [[97, 10]], [[120, 10]]⟩]
        [⟨1, 1, 1, 1, [[98, 10]], [[121, 10]]⟩] =
      .error ⟨EXIT_TROUBLE, screwup_msg⟩ ∧
      screwup_msg ≠ "internal error in block format" :=
  ⟨rfl, by decide⟩

/-- C4 (amended): when hunks of the two threads touch the same common line,
the payloads are cross-checked for equality (equal length and bytes); the
block build fails and the whole run aborts with `EXIT_TROUBLE` exactly when
they disagree, reporting the actual diagnostic "internal error: screwup in
format of diff blocks". -/
theorem claim_C4 (p q : Payload) :
    make_3way_diff [⟨1, 1, 1, 1, [[97, 10]], [p]⟩] [⟨1, 1, 1, 1, [[98, 10]], [q]⟩] =
        .error ⟨EXIT_TROUBLE, screwup_msg⟩ ↔
      p ≠ q := by
  constructor
  · intro he hpq
    subst hpq
    simp only [make_3way_diff, make3way_go, pick_base, absorb, absorb_go, List.length_nil,
      List.length_cons] at he
    norm_num at he
    revert he
    simp [using_to_diff3_block, copy_common, copy_at, copy_stringlist, build_side,
      copy_d_side, fill_from, thread_range, create_diff3_block, diff_block.numlinesFC,
      diff_block.numlinesFO, compare_line_list]
  · intro hpq
    have hqp : ¬(q = p) := fun hc => hpq hc.symm
    simp only [make_3way_diff, List.length_cons, List.length_nil]
    norm_num
    simp [make3way_go, pick_base, absorb, absorb_go, using_to_diff3_block, copy_common,
      copy_at, copy_stringlist, build_side, copy_d_side, fill_from, thread_range,
      create_diff3_block, diff_block.numlinesFC, diff_block.numlinesFO, hqp]

theorem claim_C4_witness :
    (make_3way_diff [⟨1, 1, 1, 1, [[97, 10]], [[120, 10]]⟩]
          [⟨1, 1, 1, 1, [[98, 10]], [[121, 10]]⟩] =
        .error ⟨EXIT_TROUBLE, screwup_msg⟩ ↔
      ([120, 10] : Payload) ≠ [121, 10]) ∧
      ([120, 10] : Payload) ≠ [121, 10] :=
  ⟨claim_C4 [120, 10] [121, 10], by decide⟩

theorem claim_C7_counterexample :
    output_diff3_block (fun i => i) (fun i => i)
        ⟨DIFF_2ND, 1, 1, 1, 1, 1, 1, [some [65, 10]], [some [66, 10]], [some [67, 10]]⟩ =
      .ok [out_item.sep (some 2),
        out_item.header 1 1 1,
        out_item.header 3 1 1, out_item.content 3 (some [67, 10]),
        out_item.header 2 1 1, out_item.content 2 (some [66, 10])] ∧
      (([out_item.sep (some 2),
          out_item.header 1 1 1,
          out_item.header 3 1 1, out_item.content 3 (some [67, 10]),
          out_item.header 2 1 1, out_item.content 2 (some [66, 10])].filter
            fun it => match it with | .content 2 _ => true | _ => false) ≠ [] ∧
        ([out_item.sep (some 2),
          out_item.header 1 1 1,
          out_item.header 3 1 1, out_item.content 3 (some [67, 10]),
          out_item.header 2 1 1, out_item.content 2 (some [66, 10])].filter
            fun it => match it with | .content 1 _ => true | _ => false) = []) :=
  ⟨rfl, by decide, by decide⟩

theorem sep_chain_nil : sep_chain [] := ⟨by simp, List.chain'_nil⟩

theorem sep_chain_tail (a : diff_block) (l : List diff_block) (h : sep_chain (a :: l)) :
    sep_chain l :=
  ⟨fun x hx => h.1 x (by simp [hx]), h.2.tail⟩

theorem sep_chain_head_lo (l : List diff_block) : ∀ a : diff_block, sep_chain (a :: l) →
    ∀ x ∈ a :: l, a.loFC ≤ x.loFC := by
  induction l with
  | nil =>
    intro a _ x hx
    simp only [List.mem_singleton] at hx
    subst hx
    exact le_refl _
  | cons b t ih =>
    intro a h x hx
    rcases List.mem_cons.mp hx with rfl | hx2
    · exact le_refl _
    · have hab : a.hiFC + 2 ≤ b.loFC := (List.chain'_cons.mp h.2).1
      have hwa : a.loFC ≤ a.hiFC + 1 := h.1 a (by simp)
      have hb := ih b (sep_chain_tail a (b :: t) h) x hx2
      omega

theorem sep_chain_lo_bound (l : List diff_block) (h : sep_chain l) (m : Int)
    (hh : ∀ x, l.head? = some x → m ≤ x.loFC) : ∀ x ∈ l, m ≤ x.loFC := by
  cases l with
  | nil => simp
  | cons a t =>
    intro x hx
    have h1 := sep_chain_head_lo t a h x hx
    have h2 := hh a rfl
    omega

theorem sep_chain_cons_head (a : diff_block) (l : List diff_block)
    (h : sep_chain (a :: l)) : ∀ x, l.head? = some x → a.hiFC + 2 ≤ x.loFC := by
  cases l with
  | nil => intro x hx; cases hx
  | cons b t =>
    intro x hx
    cases hx
    exact (List.chain'_cons.mp h.2).1

theorem pick_base_spec (c0 c1 : List diff_block) (bt : Nat) (bh : diff_block)
    (r0 r1 : List diff_block) (h : pick_base c0 c1 = some (bt, bh, r0, r1)) :
    bt ≤ 1 ∧
      (bt = 0 → c0 = bh :: r0 ∧ c1 = r1 ∧
        (∀ x, c1.head? = some x → bh.loFC ≤ x.loFC)) ∧
      (bt = 1 → c1 = bh :: r1 ∧ c0 = r0 ∧
        (∀ x, c0.head? = some x → bh.loFC ≤ x.loFC)) := by
  cases c0 with
  | nil =>
    cases c1 with
    | nil => cases h
    | cons h1 t1 =>
      simp only [pick_base, Option.some.injEq, Prod.mk.injEq] at h
      obtain ⟨rfl, rfl, rfl, rfl⟩ := h
      refine ⟨by omega, ?_, ?_⟩
      · intro hc; exact absurd hc (by omega)
      · intro _
        exact ⟨rfl, rfl, fun x hx => Option.noConfusion hx⟩
  | cons h0 t0 =>
    cases c1 with
    | nil =>
      simp only [pick_base, Option.some.injEq, Prod.mk.injEq] at h
      obtain ⟨rfl, rfl, rfl, rfl⟩ := h
      refine ⟨by omega, ?_, ?_⟩
      · intro _
        exact ⟨rfl, rfl, fun x hx => Option.noConfusion hx⟩
      · intro hc; exact absurd hc (by omega)
    | cons h1 t1 =>
      by_cases hcmp : h0.loFC > h1.loFC
      · simp only [pick_base, if_pos hcmp, Option.some.injEq, Prod.mk.injEq] at h
        obtain ⟨rfl, rfl, rfl, rfl⟩ := h
        refine ⟨by omega, ?_, ?_⟩
        · intro hc; exact absurd hc (by omega)
        · intro _
          refine ⟨rfl, rfl, fun x hx => ?_⟩
          cases hx
          omega
      · simp only [pick_base, if_neg hcmp, Option.some.injEq, Prod.mk.injEq] at h
        obtain ⟨rfl, rfl, rfl, rfl⟩ := h
        refine ⟨by omega, ?_, ?_⟩
        · intro _
          refine ⟨rfl, rfl, fun x hx => ?_⟩
          cases hx
          omega
        · intro hc; exact absurd hc (by omega)

theorem absorb_go_spec (fuel : Nat) : ∀ s : loop_state,
    s.c0.length + s.c1.length ≤ fuel → s.hwT ≤ 1 →
    sep_chain s.c0 → sep_chain s.c1 →
    (∀ h ∈ s.u0 ++ s.u1, h.hiFC ≤ s.hw) →
    (∀ h, (if s.hwT = 0 then s.c0 else s.c1).head? = some h → s.hw + 2 ≤ h.loFC) →
    (∃ lu, (if s.hwT = 0 then s.u0 else s.u1).getLast? = some lu ∧ lu.hiFC = s.hw) →
    (absorb_go fuel s).hwT ≤ 1 ∧
      sep_chain (absorb_go fuel s).c0 ∧ sep_chain (absorb_go fuel s).c1 ∧
      s.u0 ++ s.c0 = (absorb_go fuel s).u0 ++ (absorb_go fuel s).c0 ∧
      s.u1 ++ s.c1 = (absorb_go fuel s).u1 ++ (absorb_go fuel s).c1 ∧
      (∃ e0, (absorb_go fuel s).u0 = s.u0 ++ e0) ∧
      (∃ e1, (absorb_go fuel s).u1 = s.u1 ++ e1) ∧
      s.hw ≤ (absorb_go fuel s).hw ∧
      (∀ h ∈ (absorb_go fuel s).u0 ++ (absorb_go fuel s).u1,
        h.hiFC ≤ (absorb_go fuel s).hw) ∧
      (∀ h, (absorb_go fuel s).c0.head? = some h →
        (absorb_go fuel s).hw + 2 ≤ h.loFC) ∧
      (∀ h, (absorb_go fuel s).c1.head? = some h →
        (absorb_go fuel s).hw + 2 ≤ h.loFC) ∧
      (∃ lu, (if (absorb_go fuel s).hwT = 0 then (absorb_go fuel s).u0
          else (absorb_go fuel s).u1).getLast? = some lu ∧
        lu.hiFC = (absorb_go fuel s).hw) := by
  induction fuel with
  | zero =>
    intro s hlen hT hsc0 hsc1 hu hhead hlast
    have hc0 : s.c0 = [] := List.length_eq_zero.mp (by omega)
    have hc1 : s.c1 = [] := List.length_eq_zero.mp (by omega)
    have hgo : absorb_go 0 s = s := rfl
    rw [hgo]
    refine ⟨hT, hsc0, hsc1, rfl, rfl, ⟨[], by simp⟩, ⟨[], by simp⟩, le_refl _, hu, ?_, ?_,
      hlast⟩
    · intro h hh; rw [hc0] at hh; cases hh
    · intro h hh; rw [hc1] at hh; cases hh
  | succ n ih =>
    intro s hlen hT hsc0 hsc1 hu hhead hlast
    by_cases h0 : s.hwT = 0
    · rw [if_pos h0] at hhead hlast
      cases hc : s.c1 with
      | nil =>
        have hgo : absorb_go (n + 1) s = s := by simp [absorb_go, h0, hc]
        rw [hgo]
        refine ⟨hT, hsc0, hsc1, rfl, by rw [hc], ⟨[], by simp⟩, ⟨[], by simp⟩, le_refl _,
          hu, ?_, ?_, ?_⟩
        · exact hhead
        · intro h hh; rw [hc] at hh; cases hh
        · rw [if_pos h0]; exact hlast
      | cons od c1t =>
        by_cases hcond : od.loFC ≤ s.hw + 1
        · have hsc1t : sep_chain c1t := sep_chain_tail od c1t (hc ▸ hsc1)
          have hlen1 : s.c0.length + c1t.length ≤ n := by
            rw [hc] at hlen; simp at hlen; omega
          by_cases hflip : s.hw < od.hiFC
          · have hgo : absorb_go (n + 1) s =
                absorb_go n ⟨1, od.hiFC, s.u0, s.u1 ++ [od], s.c0, c1t⟩ := by
              simp [absorb_go, h0, hc, hcond, hflip]
            rw [hgo]
            obtain ⟨A1, A2, A3, A4, A5, ⟨e0, A6⟩, ⟨e1, A7⟩, A8, A9, A10, A11, A12⟩ :=
              ih ⟨1, od.hiFC, s.u0, s.u1 ++ [od], s.c0, c1t⟩ (by simpa using hlen1)
                (by simp) hsc0 hsc1t
                (by intro h hh
                    simp only [List.append_assoc, List.mem_append] at hh
                    rcases hh with hh | hh | hh
                    · exact le_trans (hu h (by simp [hh])) (le_of_lt hflip)
                    · exact le_trans (hu h (by simp [hh])) (le_of_lt hflip)
                    · simp at hh; subst hh; exact le_refl _)
                (by intro h hh
                    exact sep_chain_cons_head od c1t (hc ▸ hsc1) h hh)
                ⟨od, by simp [List.getLast?_concat], rfl⟩
            refine ⟨A1, A2, A3, A4, ?_, ⟨e0, A6⟩, ⟨[od] ++ e1, by rw [A7, List.append_assoc]⟩,
              le_trans (le_of_lt hflip) A8, A9, A10, A11, A12⟩
            rw [show s.u1 ++ od :: c1t = (s.u1 ++ [od]) ++ c1t by simp]
            exact A5
          · have hgo : absorb_go (n + 1) s =
                absorb_go n ⟨0, s.hw, s.u0, s.u1 ++ [od], s.c0, c1t⟩ := by
              simp [absorb_go, h0, hc, hcond, hflip]
            rw [hgo]
            obtain ⟨A1, A2, A3, A4, A5, ⟨e0, A6⟩, ⟨e1, A7⟩, A8, A9, A10, A11, A12⟩ :=
              ih ⟨0, s.hw, s.u0, s.u1 ++ [od], s.c0, c1t⟩ (by simpa using hlen1)
                (by simp) hsc0 hsc1t
                (by intro h hh
                    simp only [List.append_assoc, List.mem_append] at hh
                    rcases hh with hh | hh | hh
                    · exact hu h (by simp [hh])
                    · exact hu h (by simp [hh])
                    · simp at hh; subst hh; exact le_of_not_lt hflip)
                (by intro h hh; exact hhead h hh)
                (by obtain ⟨lu, hl1, hl2⟩ := hlast; exact ⟨lu, hl1, hl2⟩)
            refine ⟨A1, A2, A3, A4, ?_, ⟨e0, A6⟩, ⟨[od] ++ e1, by rw [A7, List.append_assoc]⟩,
              A8, A9, A10, A11, A12⟩
            rw [show s.u1 ++ od :: c1t = (s.u1 ++ [od]) ++ c1t by simp]
            exact A5
        · have hgo : absorb_go (n + 1) s = s := by simp [absorb_go, h0, hc, hcond]
          rw [hgo]
          refine ⟨hT, hsc0, hsc1, rfl, by rw [hc], ⟨[], by simp⟩, ⟨[], by simp⟩, le_refl _,
            hu, ?_, ?_, ?_⟩
          · exact hhead
          · intro h hh
            rw [hc] at hh
            cases hh
            omega
          · rw [if_pos h0]; exact hlast
    · have h1 : s.hwT = 1 := by omega
      rw [h1] at hhead hlast
      simp only [Nat.one_ne_zero, if_false] at hhead hlast
      cases hc : s.c0 with
      | nil =>
        have hgo : absorb_go (n + 1) s = s := by simp [absorb_go, h1, hc]
        rw [hgo]
        refine ⟨hT, hsc0, hsc1, by rw [hc], rfl, ⟨[], by simp⟩, ⟨[], by simp⟩, le_refl _,
          hu, ?_, ?_, ?_⟩
        · intro h hh; rw [hc] at hh; cases hh
        · exact hhead
        · rw [h1]; simp only [Nat.one_ne_zero, if_false]; exact hlast
      | cons od c0t =>
        by_cases hcond : od.loFC ≤ s.hw + 1
        · have hsc0t : sep_chain c0t := sep_chain_tail od c0t (hc ▸ hsc0)
          have hlen1 : c0t.length + s.c1.length ≤ n := by
            rw [hc] at hlen; simp at hlen; omega
          by_cases hflip : s.hw < od.hiFC
          · have hgo : absorb_go (n + 1) s =
                absorb_go n ⟨0, od.hiFC, s.u0 ++ [od], s.u1, c0t, s.c1⟩ := by
              simp [absorb_go, h1, hc, hcond, hflip]
            rw [hgo]
            obtain ⟨A1, A2, A3, A4, A5, ⟨e0, A6⟩, ⟨e1, A7⟩, A8, A9, A10, A11, A12⟩ :=
              ih ⟨0, od.hiFC, s.u0 ++ [od], s.u1, c0t, s.c1⟩ (by simpa using hlen1)
                (by simp) hsc0t hsc1
                (by intro h hh
                    simp only [List.append_assoc, List.mem_append] at hh
                    rcases hh with hh | hh | hh
                    · exact le_trans (hu h (by simp [hh])) (le_of_lt hflip)
                    · simp at hh; subst hh; exact le_refl _
                    · exact le_trans (hu h (by simp [hh])) (le_of_lt hflip))
                (by intro h hh
                    exact sep_chain_cons_head od c0t (hc ▸ hsc0) h hh)
                ⟨od, by simp [List.getLast?_concat], rfl⟩
            refine ⟨A1, A2, A3, ?_, A5, ⟨[od] ++ e0, by rw [A6, List.append_assoc]⟩,
              ⟨e1, A7⟩, le_trans (le_of_lt hflip) A8, A9, A10, A11, A12⟩
            rw [show s.u0 ++ od :: c0t = (s.u0 ++ [od]) ++ c0t by simp]
            exact A4
          · have hgo : absorb_go (n + 1) s =
                absorb_go n ⟨1, s.hw, s.u0 ++ [od], s.u1, c0t, s.c1⟩ := by
              simp [absorb_go, h1, hc, hcond, hflip]
            rw [hgo]
            obtain ⟨A1, A2, A3, A4, A5, ⟨e0, A6⟩, ⟨e1, A7⟩, A8, A9, A10, A11, A12⟩ :=
              ih ⟨1, s.hw, s.u0 ++ [od], s.u1, c0t, s.c1⟩ (by simpa using hlen1)
                (by simp) hsc0t hsc1
                (by intro h hh
                    simp only [List.append_assoc, List.mem_append] at hh
                    rcases hh with hh | hh | hh
                    · exact hu h (by simp [hh])
                    · simp at hh; subst hh; exact le_of_not_lt hflip
                    · exact hu h (by simp [hh]))
                (by intro h hh; exact hhead h hh)
                (by obtain ⟨lu, hl1, hl2⟩ := hlast; exact ⟨lu, hl1, hl2⟩)
            refine ⟨A1, A2, A3, ?_, A5, ⟨[od] ++ e0, by rw [A6, List.append_assoc]⟩,
              ⟨e1, A7⟩, A8, A9, A10, A11, A12⟩
            rw [show s.u0 ++ od :: c0t = (s.u0 ++ [od]) ++ c0t by simp]
            exact A4
        · have hgo : absorb_go (n + 1) s = s := by simp [absorb_go, h1, hc, hcond]
          rw [hgo]
          refine ⟨hT, hsc0, hsc1, by rw [hc], rfl, ⟨[], by simp⟩, ⟨[], by simp⟩, le_refl _,
            hu, ?_, ?_, ?_⟩
          · intro h hh
            rw [hc] at hh
            cases hh
            omega
          · exact hhead
          · rw [h1]; simp only [Nat.one_ne_zero, if_false]; exact hlast

theorem absorb_c1_nil (s : loop_state) (h0 : s.hwT = 0) (hc : s.c1 = []) :
    absorb s = s := by
  unfold absorb
  cases hf : s.c0.length + s.c1.length with
  | zero => rfl
  | succ n => simp [absorb_go, h0, hc]

theorem make3way_nil1_all_1st (fuel : Nat) : ∀ (c0 : List diff_block) (last_diff3 : diff3_block)
    (bs : List diff3_block), make3way_go fuel c0 [] last_diff3 = .ok bs →
    ∀ b ∈ bs, b.correspond = DIFF_1ST := by
  induction fuel with
  | zero =>
    intro c0 last_diff3 bs h b hb
    cases c0 with
    | nil =>
      rw [make3way_go.eq_def] at h
      simp only [pick_base, Except.ok.injEq] at h
      subst h
      simp at hb
    | cons a l =>
      rw [make3way_go.eq_def] at h
      simp only [pick_base] at h
      exact Except.noConfusion h
  | succ n ih =>
    intro c0 last_diff3 bs h b hb
    cases c0 with
    | nil =>
      rw [make3way_go.eq_def] at h
      simp only [pick_base, Except.ok.injEq] at h
      subst h
      simp at hb
    | cons a l =>
      rw [make3way_go.eq_def] at h
      simp only [pick_base] at h
      norm_num at h
      rw [absorb_c1_nil ⟨0, a.hiFC, [a], [], l, []⟩ rfl rfl] at h
      cases hu : using_to_diff3_block [a] [] 0 0 last_diff3 with
      | none =>
        simp only [hu] at h
        exact Except.noConfusion h
      | some tb =>
        simp only [hu] at h
        cases hrec : make3way_go n l [] tb with
        | error e =>
          simp only [hrec] at h
          exact Except.noConfusion h
        | ok rest =>
          simp only [hrec, Except.ok.injEq] at h
          subst h
          rcases List.mem_cons.mp hb with rfl | hb2
          · obtain ⟨lf, ll, -, -, -, -, -, -, hcorr⟩ :=
              utd_some_spec [a] [] 0 0 last_diff3 b hu
            simpa using hcorr
          · exact ih l tb rest hrec b hb2

theorem merge_go_all_1st (m rev : Nat → Nat) (hrev : rev 0 = 0) (fl : out_flags)
    (f0 f1 f2 : String) (bs : List diff3_block)
    (h1 : ∀ b ∈ bs, b.correspond = DIFF_1ST) :
    ∀ (linesread : Int) (infile out : List Nat) (cf : Bool),
      output_diff3_merge_go m rev fl f0 f1 f2 bs linesread infile out cf =
        .ok (out ++ infile, cf) := by
  induction bs with
  | nil => intro lr infile out cf; rfl
  | cons b rest ih =>
    intro lr infile out cf
    have hb : b.correspond = DIFF_1ST := h1 b (by simp)
    have ht : mapped_type rev b.correspond = DIFF_1ST := by
      rw [hb]
      simp [mapped_type, hrev, d3of]
    simp only [output_diff3_merge_go, ht, merge_classify]
    exact ih (fun b2 hb2 => h1 b2 (by simp [hb2])) lr infile out cf

/-- C6: in merge mode, when OLDER and YOURS are identical — so the
YOURS-vs-COMMON pairwise diff is empty and every block is one-sided toward
MINE — the output is byte-for-byte equal to MINE (a missing final newline
included), and no conflicts are found. -/
theorem claim_C6 (t0 : List diff_block) (provider : Bool → Except RunError (List diff_block))
    (mine : List Nat) (f0 f1 f2 : String)
    (hp1 : provider true = .ok []) (hp0 : provider false = .ok t0)
    (r : Nat × List Nat)
    (hr : diff3_main [.om] provider mine f0 f1 f2 = .ok r) :
    r = (0, mine) := by
  have hcfg : check_options [.om] =
      .ok ⟨false, true, true, true, false, false, false, false, false, []⟩ := rfl
  cases hmk : make_3way_diff t0 [] with
  | error e => simp [diff3_main, hcfg, hp1, hp0, hmk] at hr
  | ok bs =>
    have h1 : ∀ b ∈ bs, b.correspond = DIFF_1ST :=
      make3way_nil1_all_1st (t0.length + ([] : List diff_block).length) t0 zero_diff3 bs
        (by simpa [make_3way_diff] using hmk)
    have hmerge := merge_go_all_1st
      (mapping_of ⟨false, true, true, true, false, false, false, false, false, []⟩)
      (mapping_of ⟨false, true, true, true, false, false, false, false, false, []⟩)
      rfl ⟨true, true, false, false⟩ f0 f1 f2 bs h1 0 mine [] false
    simp only [diff3_main, hcfg, hp1, hp0, hmk, output_diff3_merge, hmerge] at hr
    simp at hr
    exact hr.symm

theorem claim_C6_witness :
    ((fun b => if b then (Except.ok [] : Except RunError (List diff_block))
        else .ok [⟨1, 1, 1, 1, [[97, 10]], [[120, 10]]⟩]) true = .ok [] ∧
      (fun b => if b then (Except.ok [] : Except RunError (List diff_block))
        else .ok [⟨1, 1, 1, 1, [[97, 10]], [[120, 10]]⟩]) false =
        .ok [⟨1, 1, 1, 1, [[97, 10]], [[120, 10]]⟩] ∧
      diff3_main [.om]
        (fun b => if b then (Except.ok [] : Except RunError (List diff_block))
          else .ok [⟨1, 1, 1, 1, [[97, 10]], [[120, 10]]⟩])
        [97, 10, 98] "a" "b" "c" = .ok (0, [97, 10, 98])) ∧
      ((0, [97, 10, 98]) : Nat × List Nat) = (0, [97, 10, 98]) :=
  ⟨⟨rfl, rfl, rfl⟩,
    claim_C6 [⟨1, 1, 1, 1, [[97, 10]], [[120, 10]]⟩]
      (fun b => if b then (Except.ok [] : Except RunError (List diff_block))
        else .ok [⟨1, 1, 1, 1, [[97, 10]], [[120, 10]]⟩])
      [97, 10, 98] "a" "b" "c" rfl rfl (0, [97, 10, 98]) rfl⟩

/-- C7 (amended): in the descriptive mode, for a block whose kind is
`DIFF_1ST`, `DIFF_2ND` or `DIFF_3RD`, every file with a non-empty range has
its content printed except one: file-2 is suppressed when the odd file is
file-1, and otherwise file-1 (the lower-numbered file of the identical
pair) is suppressed — not the odd file itself. -/
theorem claim_C7 (m rev : Nat → Nat) (b : diff3_block) (k : Nat)
    (hk : b.correspond = DIFF_1ST ∧ k = 0 ∨ b.correspond = DIFF_2ND ∧ k = 1 ∨
      b.correspond = DIFF_3RD ∧ k = 2)
    (items : List out_item) (hout : output_diff3_block m rev b = .ok items) :
    ∀ i < 3, ((∃ line, out_item.content (i + 1) line ∈ items) ↔
      (i ≠ (if rev k = 0 then 1 else 0) ∧ b.lo (m i) ≤ b.hi (m i))) := by
  have hitems : items = out_item.sep (some (rev k + 1)) ::
      ((if rev k = 1 then [0, 2, 1] else [0, 1, 2]).map
        (file_section m b (if rev k = 0 then 1 else 0))).flatten := by
    rcases hk with ⟨hc, rfl⟩ | ⟨hc, rfl⟩ | ⟨hc, rfl⟩ <;>
      · rw [output_diff3_block, hc] at hout
        simp only [Except.ok.injEq] at hout
        exact hout.symm
  subst hitems
  intro i hi
  have hmem : ∀ j dp, (∃ line, out_item.content (i + 1) line ∈ file_section m b dp j) ↔
      (i = j ∧ j ≠ dp ∧ b.lo (m j) ≤ b.hi (m j)) := by
    intro j dp
    constructor
    · rintro ⟨line, hline⟩
      simp only [file_section, List.mem_cons] at hline
      rcases hline with hline | hline
      · cases hline
      by_cases hjdp : j = dp
      · rw [if_pos hjdp] at hline; cases hline
      rw [if_neg hjdp] at hline
      by_cases hrange : b.lo (m j) ≤ b.hi (m j)
      · rw [if_pos hrange] at hline
        rcases List.mem_append.mp hline with hline | hline
        · obtain ⟨jj, -, hjj⟩ := List.mem_map.mp hline
          cases hjj
          exact ⟨by omega, hjdp, hrange⟩
        · revert hline
          split <;> simp
      · rw [if_neg hrange] at hline
        cases hline
    · rintro ⟨rfl, hjdp, hrange⟩
      refine ⟨(b.lines (m i)).getD 0 none, ?_⟩
      simp only [file_section, List.mem_cons]
      right
      rw [if_neg hjdp, if_pos hrange]
      refine List.mem_append.mpr (Or.inl ?_)
      refine List.mem_map.mpr ⟨0, ?_, rfl⟩
      refine List.mem_range.mpr ?_
      omega
  constructor
  · rintro ⟨line, hline⟩
    rcases List.mem_cons.mp hline with hline2 | hline2
    · cases hline2
    obtain ⟨sec, hsec, hin⟩ := List.mem_flatten.mp hline2
    obtain ⟨j, hj, rfl⟩ := List.mem_map.mp hsec
    obtain ⟨rfl, hjdp, hrange⟩ := (hmem j _).mp ⟨line, hin⟩
    exact ⟨hjdp, hrange⟩
  · rintro ⟨hidp, hrange⟩
    obtain ⟨line, hline⟩ := (hmem i _).mpr ⟨rfl, hidp, hrange⟩
    refine ⟨line, List.mem_cons.mpr (Or.inr ?_)⟩
    refine List.mem_flatten.mpr ⟨file_section m b (if rev k = 0 then 1 else 0) i, ?_, hline⟩
    refine List.mem_map.mpr ⟨i, ?_, rfl⟩
    split <;> (interval_cases i <;> simp)

theorem claim_C7_witness :
    ((⟨DIFF_2ND, 1, 1, 1, 1, 1, 1, [some [65, 10]], [some [66, 10]],
          [some [67, 10]]⟩ : diff3_block).correspond = DIFF_1ST ∧ (1 : Nat) = 0 ∨
      (⟨DIFF_2ND, 1, 1, 1, 1, 1, 1, [some [65, 10]], [some [66, 10]],
          [some [67, 10]]⟩ : diff3_block).correspond = DIFF_2ND ∧ (1 : Nat) = 1 ∨
      (⟨DIFF_2ND, 1, 1, 1, 1, 1, 1, [some [65, 10]], [some [66, 10]],
          [some [67, 10]]⟩ : diff3_block).correspond = DIFF_3RD ∧ (1 : Nat) = 2) ∧
      (∀ i < 3, ((∃ line, out_item.content (i + 1) line ∈
          [out_item.sep (some 2),
            out_item.header 1 1 1,
            out_item.header 3 1 1, out_item.content 3 (some [67, 10]),
            out_item.header 2 1 1, out_item.content 2 (some [66, 10])]) ↔
        (i ≠ (if (fun i => i : Nat → Nat) 1 = 0 then 1 else 0) ∧
          (⟨DIFF_2ND, 1, 1, 1, 1, 1, 1, [some [65, 10]], [some [66, 10]],
            [some [67, 10]]⟩ : diff3_block).lo ((fun i => i : Nat → Nat) i) ≤
          (⟨DIFF_2ND, 1, 1, 1, 1, 1, 1, [some [65, 10]], [some [66, 10]],
            [some [67, 10]]⟩ : diff3_block).hi ((fun i => i : Nat → Nat) i)))) :=
  ⟨Or.inr (Or.inl ⟨rfl, rfl⟩),
    claim_C7 (fun i => i) (fun i => i)
      ⟨DIFF_2ND, 1, 1, 1, 1, 1, 1, [some [65, 10]], [some [66, 10]], [some [67, 10]]⟩ 1
      (Or.inr (Or.inl ⟨rfl, rfl⟩)) _ rfl⟩

/-- C8: a provider exit status of 0 or 1 is normal; status 2 or more, or
abnormal termination, aborts with `EXIT_TROUBLE` and a message
distinguishing could-not-invoke (126), not-found (127), and failed
(naming the status when the termination is an exit). -/
theorem claim_C8 (n : Nat) :
    (n ≤ 1 → read_diff_status (.exited n) = .ok ()) ∧
      (2 ≤ n → n < INT_MAX →
        read_diff_status (.exited n) =
          .error ⟨EXIT_TROUBLE,
            if n = 126 then "subsidiary program diff could not be invoked"
            else if n = 127 then "subsidiary program diff not found"
            else "subsidiary program diff failed (exit status " ++ toString n ++ ")"⟩) ∧
      read_diff_status .abnormal =
        .error ⟨EXIT_TROUBLE, "subsidiary program diff failed"⟩ := by
  refine ⟨fun h => ?_, fun h2 hmax => ?_, ?_⟩
  · simp only [read_diff_status, EXIT_TROUBLE]
    rw [if_neg (by omega)]
  · simp only [read_diff_status, EXIT_TROUBLE]
    rw [if_pos h2]
    simp only [subsid_fail_msg]
    have hne : n ≠ INT_MAX := by omega
    split_ifs <;> simp_all
  · rfl

theorem claim_C8_witness :
    ((0 : Nat) ≤ 1 ∧ read_diff_status (.exited 0) = .ok ()) ∧
      (read_diff_status (.exited 126) =
        .error ⟨EXIT_TROUBLE, "subsidiary program diff could not be invoked"⟩) ∧
      (read_diff_status (.exited 3) =
        .error ⟨EXIT_TROUBLE, "subsidiary program diff failed (exit status 3)"⟩) :=
  ⟨⟨by decide, (claim_C8 0).1 (by decide)⟩,
    by have h := (claim_C8 126).2.1 (by decide) (by decide); simpa using h,
    by have h := (claim_C8 3).2.1 (by decide) (by decide); simpa using h⟩

theorem process_opts_error (e : RunError) (opts : List opt) : ∀ st : opt_state,
    process_opts opts st = .error e → e = ⟨EXIT_TROUBLE, "too many file label options"⟩ := by
  induction opts with
  | nil => intro st h; cases h
  | cons o rest ih =>
    intro st h
    cases ha : apply_opt st o with
    | error e2 =>
      simp only [process_opts, ha, Except.error.injEq] at h
      subst h
      cases o
      case oL s =>
        simp only [apply_opt] at ha
        by_cases hlt : st.tags.length < 3
        · rw [if_pos hlt] at ha; exact Except.noConfusion ha
        · rw [if_neg hlt] at ha
          injection ha with h2
          exact h2.symm
      all_goals exact Except.noConfusion ha
    | ok st1 =>
      simp only [process_opts, ha] at h
      exact ih st1 h

theorem process_opts_ok_spec (opts : List opt) : ∀ st st' : opt_state,
    process_opts opts st = .ok st' →
    st'.incompat = st.incompat ||| mode_mask opts ∧
      st'.finalwrite = (st.finalwrite || has_opt .oi opts) ∧
      st'.merge = (st.merge || has_opt .om opts) ∧
      st'.flagging = (st.flagging || has_opt .oA opts || has_opt .oE opts) ∧
      st'.tags.isEmpty = (st.tags.isEmpty && !has_label opts) := by
  induction opts with
  | nil =>
    intro st st' h
    cases h
    simp [mode_mask, has_opt, has_label]
  | cons o rest ih =>
    intro st st' h
    cases ha : apply_opt st o with
    | error e2 =>
      simp only [process_opts, ha] at h
      exact Except.noConfusion h
    | ok st1 =>
      simp only [process_opts, ha] at h
      obtain ⟨i1, i2, i3, i4, i5⟩ := ih st1 st' h
      cases o
      case oL s =>
        simp only [apply_opt] at ha
        by_cases hlt : st.tags.length < 3
        · rw [if_pos hlt] at ha
          injection ha with ha2
          subst ha2
          refine ⟨?_, ?_, ?_, ?_, ?_⟩ <;>
            simp_all [mode_mask, mode_bit, has_opt, has_label]
        · rw [if_neg hlt] at ha
          exact Except.noConfusion ha
      all_goals
        (injection ha with ha2
         subst ha2
         refine ⟨?_, ?_, ?_, ?_, ?_⟩ <;>
           simp_all [mode_mask, mode_bit, has_opt, has_label, Nat.or_assoc])

theorem has_opt_iff (o : opt) (opts : List opt) : has_opt o opts = true ↔ o ∈ opts := by
  induction opts with
  | nil => simp [has_opt]
  | cons x rest ih =>
    simp only [has_opt, List.mem_cons]
    by_cases hx : x = o
    · simp [hx]
    · have hox : ¬o = x := fun h2 => hx h2.symm
      simp [hx, ih, hox]

theorem mode_bit_lt (o : opt) (k : Nat) (h : mode_bit o = some k) : k < 6 := by
  cases o <;> simp [mode_bit] at h <;> omega

theorem mode_mask_testBit (opts : List opt) (k : Nat) :
    (mode_mask opts).testBit k = opts.any (fun o => mode_bit o = some k) := by
  induction opts with
  | nil => simp [mode_mask]
  | cons o rest ih =>
    simp only [mode_mask, Nat.testBit_or, ih, List.any_cons]
    congr 1
    cases o <;>
      simp only [mode_bit, Option.some.injEq, Nat.one_shiftLeft, Nat.testBit_two_pow] <;>
      simp [eq_comm]

theorem mode_mask_lt (opts : List opt) : mode_mask opts < 64 := by
  induction opts with
  | nil => simp [mode_mask]
  | cons o rest ih =>
    have hb : (match mode_bit o with | some j => 1 <<< j | none => 0) < 64 := by
      cases o <;> simp [mode_bit]
    calc (match mode_bit o with | some j => 1 <<< j | none => 0) ||| mode_mask rest
        < 2 ^ 6 := Nat.or_lt_two_pow hb ih
      _ = 64 := rfl

theorem two_bits_and_pred (n : Nat) (hn : n < 64) (i j : Nat) (hi : i < 6) (hj : j < 6)
    (hij : i ≠ j) (hbi : n.testBit i = true) (hbj : n.testBit j = true) :
    n &&& (n - 1) ≠ 0 := by
  have key : ∀ n < 64, ∀ i < 6, ∀ j < 6,
      (!(i == j) && n.testBit i && n.testBit j && (n &&& (n - 1) == 0)) = false := by
    decide
  intro h0
  have hb : (!(i == j) && n.testBit i && n.testBit j && (n &&& (n - 1) == 0)) = true := by
    simp [hbi, hbj, h0, hij]
  rw [key n hn i hi j hj] at hb
  exact Bool.noConfusion hb

/-- C9: a command line selecting more than one distinct mode switch, or
combining `-i` with `-m`, or giving an `-L` label while no
conflict-bracketing flag is in effect, aborts with the trouble status and a
usage-hint diagnostic — whatever the diff provider would answer, so before
any pair of files is diffed. -/
theorem claim_C9 (opts : List opt)
    (hbad : two_mode_switches opts ∨ (opt.oi ∈ opts ∧ opt.om ∈ opts) ∨
      (has_label opts = true ∧ bracketing_in_effect opts = false))
    (provider : Bool → Except RunError (List diff_block)) (mine : List Nat)
    (f0 f1 f2 : String) :
    ∃ e : RunError, diff3_main opts provider mine f0 f1 f2 = .error e ∧
      e.status = EXIT_TROUBLE ∧
      (e.msg = "incompatible options" ∨ e.msg = "too many file label options") := by
  cases hpo : process_opts opts init_opt_state with
  | error e =>
    have he := process_opts_error e opts init_opt_state hpo
    subst he
    refine ⟨⟨EXIT_TROUBLE, "too many file label options"⟩, ?_, rfl, Or.inr rfl⟩
    simp [diff3_main, check_options, hpo]
  | ok st =>
    obtain ⟨i1, i2, i3, i4, i5⟩ := process_opts_ok_spec opts init_opt_state st hpo
    simp only [init_opt_state] at i1 i2 i3 i4 i5
    simp only [Nat.zero_or, Bool.false_or, List.isEmpty_nil, Bool.true_and] at i1 i2 i3 i4 i5
    have hcond : (decide (st.incompat &&& (st.incompat - 1) ≠ 0)
        || (st.finalwrite && st.merge)
        || (!st.tags.isEmpty &&
            !(st.flagging || (decide (st.incompat = 0) && st.merge)))) = true := by
      rcases hbad with ⟨o1, o2, k1, k2, hm1, hm2, hb1, hb2, hkk⟩ | ⟨hoi, hom⟩ | ⟨hlab, hbr⟩
      · have ht1 : (mode_mask opts).testBit k1 = true := by
          rw [mode_mask_testBit]
          exact List.any_eq_true.mpr ⟨o1, hm1, by simp [hb1]⟩
        have ht2 : (mode_mask opts).testBit k2 = true := by
          rw [mode_mask_testBit]
          exact List.any_eq_true.mpr ⟨o2, hm2, by simp [hb2]⟩
        have hne := two_bits_and_pred (mode_mask opts) (mode_mask_lt opts) k1 k2
          (mode_bit_lt o1 k1 hb1) (mode_bit_lt o2 k2 hb2) hkk ht1 ht2
        rw [i1]
        simp [hne]
      · rw [i2, i3]
        simp [(has_opt_iff .oi opts).mpr hoi, (has_opt_iff .om opts).mpr hom]
      · unfold bracketing_in_effect at hbr
        simp only [Bool.or_eq_false_iff, Bool.and_eq_false_iff] at hbr
        obtain ⟨⟨hA, hE⟩, hbr2⟩ := hbr
        rw [i5, i4, i1, i3, hA, hE, hlab]
        simp only [Bool.not_true, Bool.and_false, Bool.false_and, Bool.false_or,
          Bool.and_true, Bool.not_false, Bool.true_and]
        rcases hbr2 with hmm | hmo
        · simp only [decide_eq_false_iff_not] at hmm
          simp [hmm]
        · simp [hmo]
    refine ⟨⟨EXIT_TROUBLE, "incompatible options"⟩, ?_, rfl, Or.inl rfl⟩
    simp only [diff3_main, check_options, hpo, hcond, if_true]

theorem claim_C9_witness :
    (two_mode_switches [opt.oA, opt.oe] ∨ (opt.oi ∈ [opt.oA, opt.oe] ∧
        opt.om ∈ [opt.oA, opt.oe]) ∨
      (has_label [opt.oA, opt.oe] = true ∧
        bracketing_in_effect [opt.oA, opt.oe] = false)) ∧
      (∃ e : RunError, diff3_main [opt.oA, opt.oe] (fun _ => .ok []) [] "a" "b" "c" =
          .error e ∧ e.status = EXIT_TROUBLE ∧
        (e.msg = "incompatible options" ∨ e.msg = "too many file label options")) :=
  ⟨Or.inl ⟨.oA, .oe, 1, 4, by decide, by decide, rfl, rfl, by decide⟩,
    claim_C9 [opt.oA, opt.oe]
      (Or.inl ⟨.oA, .oe, 1, 4, by decide, by decide, rfl, rfl, by decide⟩)
      (fun _ => .ok []) [] "a" "b" "c"⟩

/-- C10: in the default descriptive mode (neither ed-script nor merge), a
run whose output succeeds exits with status 0, never 1. -/
theorem claim_C10 (opts : List opt) (provider : Bool → Except RunError (List diff_block))
    (mine : List Nat) (f0 f1 f2 : String) (cfg : config) (r : Nat × List Nat)
    (hcfg : check_options opts = .ok cfg)
    (hed : cfg.edscript = false) (hm : cfg.merge = false)
    (hr : diff3_main opts provider mine f0 f1 f2 = .ok r) :
    r.1 = 0 := by
  cases h1 : provider true with
  | error e => simp [diff3_main, hcfg, h1] at hr
  | ok t1 =>
    cases h0 : provider false with
    | error e => simp [diff3_main, hcfg, h1, h0] at hr
    | ok t0 =>
      cases hmk : make_3way_diff t0 t1 with
      | error e => simp [diff3_main, hcfg, h1, h0, hmk] at hr
      | ok bs =>
        cases hout : output_diff3 (mapping_of cfg) (mapping_of cfg) bs with
        | error e => simp [diff3_main, hcfg, h1, h0, hmk, hed, hm, hout] at hr
        | ok items =>
          simp only [diff3_main, hcfg, h1, h0, hmk, hed, hm, hout, Bool.false_eq_true,
            if_false] at hr
          cases hr
          rfl

theorem claim_C10_witness :
    check_options [] =
        .ok ⟨false, false, false, false, false, false, false, false, false, []⟩ ∧
      diff3_main [] (fun _ => .ok []) [] "a" "b" "c" = .ok (0, []) ∧
      ((0 : Nat), ([] : List Nat)).1 = 0 :=
  ⟨rfl, rfl,
    claim_C10 [] (fun _ => .ok []) [] "a" "b" "c"
      ⟨false, false, false, false, false, false, false, false, false, []⟩ (0, [])
      rfl rfl rfl rfl⟩

theorem tri_lo_bound (l : List diff3_block)
    (hc : List.Chain' (fun x y => x.hi2 + 2 ≤ y.lo2) l)
    (hwf : ∀ b ∈ l, b.lo2 ≤ b.hi2 + 1) (m : Int)
    (hm : ∀ b, l.head? = some b → m ≤ b.lo2) : ∀ b ∈ l, m ≤ b.lo2 := by
  induction l with
  | nil => simp
  | cons a t ih =>
    intro b hb
    rcases List.mem_cons.mp hb with rfl | hb2
    · exact hm b rfl
    · refine ih hc.tail (fun x hx => hwf x (by simp [hx])) ?_ b hb2
      intro x hx
      have h1 := (List.chain'_cons'.mp hc).1 x (Option.mem_def.mpr hx)
      have h2 := hm a rfl
      have h3 := hwf a (by simp)
      omega

theorem make3way_go_spec (fuel : Nat) : ∀ (c0 c1 : List diff_block)
    (last_diff3 : diff3_block) (bs : List diff3_block),
    c0.length + c1.length ≤ fuel → sep_chain c0 → sep_chain c1 →
    make3way_go fuel c0 c1 last_diff3 = .ok bs →
    List.Chain' (fun x y => x.hi2 + 2 ≤ y.lo2) bs ∧
      (∀ b ∈ bs, b.lo2 ≤ b.hi2 + 1) ∧
      (∀ b ∈ bs, ∀ h ∈ c0 ++ c1, h.hiFC ≤ b.hi2 ∨ b.hi2 + 2 ≤ h.loFC) ∧
      (∀ m : Int, (∀ h, c0.head? = some h → m ≤ h.loFC) →
        (∀ h, c1.head? = some h → m ≤ h.loFC) →
        ∀ b, bs.head? = some b → m ≤ b.lo2) := by
  induction fuel with
  | zero =>
    intro c0 c1 ld bs hlen hsc0 hsc1 h
    have hc0 : c0 = [] := List.length_eq_zero.mp (by omega)
    have hc1 : c1 = [] := List.length_eq_zero.mp (by omega)
    subst hc0; subst hc1
    rw [make3way_go.eq_def] at h
    simp only [pick_base, Except.ok.injEq] at h
    subst h
    refine ⟨List.chain'_nil, by simp, by simp, ?_⟩
    intro m _ _ b hb
    cases hb
  | succ n ih =>
    intro c0 c1 ld bs hlen hsc0 hsc1 h
    cases hp : pick_base c0 c1 with
    | none =>
      rw [make3way_go.eq_def] at h
      simp only [hp, Except.ok.injEq] at h
      subst h
      refine ⟨List.chain'_nil, by simp, by simp, ?_⟩
      intro m _ _ b hb
      cases hb
    | some r =>
      obtain ⟨bt, b, r0, r1⟩ := r
      obtain ⟨hbt, hbt0, hbt1⟩ := pick_base_spec c0 c1 bt b r0 r1 hp
      rw [make3way_go.eq_def] at h
      simp only [hp] at h
      interval_cases bt
      · obtain ⟨hc0e, hc1e, -⟩ := hbt0 rfl
        subst hc0e; subst hc1e
        norm_num at h
        have hwfb : hunk_wf b := hsc0.1 b (by simp)
        obtain ⟨A1, A2, A3, A4, A5, ⟨e0, A6⟩, ⟨e1, A7⟩, A8, A9, A10, A11, A12⟩ :=
          absorb_go_spec (r0.length + c1.length) ⟨0, b.hiFC, [b], [], r0, c1⟩
            (le_refl _) (by simp) (sep_chain_tail b r0 hsc0) hsc1
            (by intro x hx; simp at hx; subst hx; exact le_refl _)
            (by intro x hx; exact sep_chain_cons_head b r0 hsc0 x hx)
            ⟨b, rfl, rfl⟩
        rw [show absorb ⟨0, b.hiFC, [b], [], r0, c1⟩ =
            absorb_go (r0.length + c1.length) ⟨0, b.hiFC, [b], [], r0, c1⟩ from rfl] at h
        cases hu : using_to_diff3_block
            (absorb_go (r0.length + c1.length) ⟨0, b.hiFC, [b], [], r0, c1⟩).u0
            (absorb_go (r0.length + c1.length) ⟨0, b.hiFC, [b], [], r0, c1⟩).u1 0
            (absorb_go (r0.length + c1.length) ⟨0, b.hiFC, [b], [], r0, c1⟩).hwT ld with
        | none =>
          simp only [hu] at h
          exact Except.noConfusion h
        | some tb =>
          simp only [hu] at h
          obtain ⟨lf, ll, hlf, hll, hlo2, hhi2, -, -, -⟩ := utd_some_spec _ _ 0 _ ld tb hu
          have hlfb : lf = b := by
            rw [if_pos rfl, A6] at hlf
            simp at hlf
            exact hlf.symm
          obtain ⟨lu, hlu1, hlu2⟩ := A12
          have hllu : ll = lu := by
            rw [hlu1] at hll
            exact (Option.some.injEq _ _ ▸ hll).symm
          have htbl : tb.lo2 = b.loFC := by rw [hlo2, hlfb]
          have htbh : tb.hi2 =
              (absorb_go (r0.length + c1.length) ⟨0, b.hiFC, [b], [], r0, c1⟩).hw := by
            rw [hhi2, hllu, hlu2]
          have hA8 : b.hiFC ≤
              (absorb_go (r0.length + c1.length) ⟨0, b.hiFC, [b], [], r0, c1⟩).hw := A8
          have hlen4 := congrArg List.length A4
          have hlen5 := congrArg List.length A5
          have hlen6 := congrArg List.length A6
          have hlen7 := congrArg List.length A7
          simp only [List.length_append, List.length_cons,
            List.length_nil] at hlen4 hlen5 hlen6 hlen7
          simp only [List.length_cons] at hlen
          cases hrec : make3way_go n
              (absorb_go (r0.length + c1.length) ⟨0, b.hiFC, [b], [], r0, c1⟩).c0
              (absorb_go (r0.length + c1.length) ⟨0, b.hiFC, [b], [], r0, c1⟩).c1 tb with
          | error e =>
            simp only [hrec] at h
            exact Except.noConfusion h
          | ok rest =>
            simp only [hrec, Except.ok.injEq] at h
            subst h
            obtain ⟨IH1, IH2, IH3, IH4⟩ := ih _ _ tb rest (by omega) A2 A3 hrec
            have hheadrest : ∀ y, rest.head? = some y → tb.hi2 + 2 ≤ y.lo2 := by
              intro y hy
              refine IH4 (tb.hi2 + 2) ?_ ?_ y hy
              · intro x hx; have := A10 x hx; omega
              · intro x hx; have := A11 x hx; omega
            have hwf2 : ∀ x ∈ tb :: rest, x.lo2 ≤ x.hi2 + 1 := by
              intro x hx
              rcases List.mem_cons.mp hx with rfl | hx2
              · rw [htbl, htbh]; unfold hunk_wf at hwfb; omega
              · exact IH2 x hx2
            have hmemsplit : ∀ h, h ∈ (b :: r0) ++ c1 →
                h ∈ (absorb_go (r0.length + c1.length) ⟨0, b.hiFC, [b], [], r0, c1⟩).u0 ∨
                h ∈ (absorb_go (r0.length + c1.length) ⟨0, b.hiFC, [b], [], r0, c1⟩).u1 ∨
                h ∈ (absorb_go (r0.length + c1.length) ⟨0, b.hiFC, [b], [], r0, c1⟩).c0 ∨
                h ∈ (absorb_go (r0.length + c1.length) ⟨0, b.hiFC, [b], [], r0, c1⟩).c1 := by
              intro h hh
              rcases List.mem_append.mp hh with hh0 | hh1
              · have : h ∈ ([b] : List diff_block) ++ r0 := by simpa using hh0
                rw [show ([b] : List diff_block) ++ r0 =
                    ([b] ++ r0 : List diff_block) from rfl, show ([b] ++ r0 : List diff_block) =
                    (⟨0, b.hiFC, [b], [], r0, c1⟩ : loop_state).u0 ++
                    (⟨0, b.hiFC, [b], [], r0, c1⟩ : loop_state).c0 from rfl, A4] at this
                rcases List.mem_append.mp this with h1 | h2
                · exact Or.inl h1
                · exact Or.inr (Or.inr (Or.inl h2))
              · have : h ∈ ([] : List diff_block) ++ c1 := by simpa using hh1
                rw [show ([] : List diff_block) ++ c1 =
                    (⟨0, b.hiFC, [b], [], r0, c1⟩ : loop_state).u1 ++
                    (⟨0, b.hiFC, [b], [], r0, c1⟩ : loop_state).c1 from rfl, A5] at this
                rcases List.mem_append.mp this with h1 | h2
                · exact Or.inr (Or.inl h1)
                · exact Or.inr (Or.inr (Or.inr h2))
            refine ⟨List.chain'_cons'.mpr ⟨fun y hy => hheadrest y (Option.mem_def.mp hy),
              IH1⟩, hwf2, ?_, ?_⟩
            · intro bb hbb hk hkmem
              rcases List.mem_cons.mp hbb with rfl | hbb2
              · rcases hmemsplit hk hkmem with hk0 | hk1 | hk2 | hk3
                · exact Or.inl (by rw [htbh]; exact A9 hk (List.mem_append.mpr (Or.inl hk0)))
                · exact Or.inl (by rw [htbh]; exact A9 hk (List.mem_append.mpr (Or.inr hk1)))
                · refine Or.inr ?_
                  rw [htbh]
                  exact sep_chain_lo_bound _ A2 _ A10 hk hk2
                · refine Or.inr ?_
                  rw [htbh]
                  exact sep_chain_lo_bound _ A3 _ A11 hk hk3
              · rcases hmemsplit hk hkmem with hk0 | hk1 | hk2 | hk3
                · refine Or.inl ?_
                  have h1 : hk.hiFC ≤ tb.hi2 := by
                    rw [htbh]; exact A9 hk (List.mem_append.mpr (Or.inl hk0))
                  have h2 : tb.hi2 + 2 ≤ bb.lo2 :=
                    tri_lo_bound rest IH1 IH2 (tb.hi2 + 2) hheadrest bb hbb2
                  have h3 := IH2 bb hbb2
                  omega
                · refine Or.inl ?_
                  have h1 : hk.hiFC ≤ tb.hi2 := by
                    rw [htbh]; exact A9 hk (List.mem_append.mpr (Or.inr hk1))
                  have h2 : tb.hi2 + 2 ≤ bb.lo2 :=
                    tri_lo_bound rest IH1 IH2 (tb.hi2 + 2) hheadrest bb hbb2
                  have h3 := IH2 bb hbb2
                  omega
                · exact IH3 bb hbb2 hk (List.mem_append.mpr (Or.inl hk2))
                · exact IH3 bb hbb2 hk (List.mem_append.mpr (Or.inr hk3))
            · intro m hm0 _ bb hbb
              cases hbb
              rw [htbl]
              exact hm0 b rfl
      · obtain ⟨hc1e, hc0e, -⟩ := hbt1 rfl
        subst hc0e; subst hc1e
        norm_num at h
        have hwfb : hunk_wf b := hsc1.1 b (by simp)
        obtain ⟨A1, A2, A3, A4, A5, ⟨e0, A6⟩, ⟨e1, A7⟩, A8, A9, A10, A11, A12⟩ :=
          absorb_go_spec (c0.length + r1.length) ⟨1, b.hiFC, [], [b], c0, r1⟩
            (le_refl _) (by simp) hsc0 (sep_chain_tail b r1 hsc1)
            (by intro x hx; simp at hx; subst hx; exact le_refl _)
            (by intro x hx; exact sep_chain_cons_head b r1 hsc1 x hx)
            ⟨b, rfl, rfl⟩
        rw [show absorb ⟨1, b.hiFC, [], [b], c0, r1⟩ =
            absorb_go (c0.length + r1.length) ⟨1, b.hiFC, [], [b], c0, r1⟩ from rfl] at h
        cases hu : using_to_diff3_block
            (absorb_go (c0.length + r1.length) ⟨1, b.hiFC, [], [b], c0, r1⟩).u0
            (absorb_go (c0.length + r1.length) ⟨1, b.hiFC, [], [b], c0, r1⟩).u1 1
            (absorb_go (c0.length + r1.length) ⟨1, b.hiFC, [], [b], c0, r1⟩).hwT ld with
        | none =>
          simp only [hu] at h
          exact Except.noConfusion h
        | some tb =>
          simp only [hu] at h
          obtain ⟨lf, ll, hlf, hll, hlo2, hhi2, -, -, -⟩ := utd_some_spec _ _ 1 _ ld tb hu
          have hlfb : lf = b := by
            rw [if_neg (by omega), A7] at hlf
            simp at hlf
            exact hlf.symm
          obtain ⟨lu, hlu1, hlu2⟩ := A12
          have hllu : ll = lu := by
            rw [hlu1] at hll
            exact (Option.some.injEq _ _ ▸ hll).symm
          have htbl : tb.lo2 = b.loFC := by rw [hlo2, hlfb]
          have htbh : tb.hi2 =
              (absorb_go (c0.length + r1.length) ⟨1, b.hiFC, [], [b], c0, r1⟩).hw := by
            rw [hhi2, hllu, hlu2]
          have hA8 : b.hiFC ≤
              (absorb_go (c0.length + r1.length) ⟨1, b.hiFC, [], [b], c0, r1⟩).hw := A8
          have hlen4 := congrArg List.length A4
          have hlen5 := congrArg List.length A5
          have hlen6 := congrArg List.length A6
          have hlen7 := congrArg List.length A7
          simp only [List.length_append, List.length_cons,
            List.length_nil] at hlen4 hlen5 hlen6 hlen7
          simp only [List.length_cons] at hlen
          cases hrec : make3way_go n
              (absorb_go (c0.length + r1.length) ⟨1, b.hiFC, [], [b], c0, r1⟩).c0
              (absorb_go (c0.length + r1.length) ⟨1, b.hiFC, [], [b], c0, r1⟩).c1 tb with
          | error e =>
            simp only [hrec] at h
            exact Except.noConfusion h
          | ok rest =>
            simp only [hrec, Except.ok.injEq] at h
            subst h
            obtain ⟨IH1, IH2, IH3, IH4⟩ := ih _ _ tb rest (by omega) A2 A3 hrec
            have hheadrest : ∀ y, rest.head? = some y → tb.hi2 + 2 ≤ y.lo2 := by
              intro y hy
              refine IH4 (tb.hi2 + 2) ?_ ?_ y hy
              · intro x hx; have := A10 x hx; omega
              · intro x hx; have := A11 x hx; omega
            have hwf2 : ∀ x ∈ tb :: rest, x.lo2 ≤ x.hi2 + 1 := by
              intro x hx
              rcases List.mem_cons.mp hx with rfl | hx2
              · rw [htbl, htbh]; unfold hunk_wf at hwfb; omega
              · exact IH2 x hx2
            have hmemsplit : ∀ h, h ∈ c0 ++ b :: r1 →
                h ∈ (absorb_go (c0.length + r1.length) ⟨1, b.hiFC, [], [b], c0, r1⟩).u0 ∨
                h ∈ (absorb_go (c0.length + r1.length) ⟨1, b.hiFC, [], [b], c0, r1⟩).u1 ∨
                h ∈ (absorb_go (c0.length + r1.length) ⟨1, b.hiFC, [], [b], c0, r1⟩).c0 ∨
                h ∈ (absorb_go (c0.length + r1.length) ⟨1, b.hiFC, [], [b], c0, r1⟩).c1 := by
              intro h hh
              rcases List.mem_append.mp hh with hh0 | hh1
              · have : h ∈ ([] : List diff_block) ++ c0 := by simpa using hh0
                rw [show ([] : List diff_block) ++ c0 =
                    (⟨1, b.hiFC, [], [b], c0, r1⟩ : loop_state).u0 ++
                    (⟨1, b.hiFC, [], [b], c0, r1⟩ : loop_state).c0 from rfl, A4] at this
                rcases List.mem_append.mp this with h1 | h2
                · exact Or.inl h1
                · exact Or.inr (Or.inr (Or.inl h2))
              · have : h ∈ ([b] : List diff_block) ++ r1 := by simpa using hh1
                rw [show ([b] : List diff_block) ++ r1 =
                    (⟨1, b.hiFC, [], [b], c0, r1⟩ : loop_state).u1 ++
                    (⟨1, b.hiFC, [], [b], c0, r1⟩ : loop_state).c1 from rfl, A5] at this
                rcases List.mem_append.mp this with h1 | h2
                · exact Or.inr (Or.inl h1)
                · exact Or.inr (Or.inr (Or.inr h2))
            refine ⟨List.chain'_cons'.mpr ⟨fun y hy => hheadrest y (Option.mem_def.mp hy),
              IH1⟩, hwf2, ?_, ?_⟩
            · intro bb hbb hk hkmem
              rcases List.mem_cons.mp hbb with rfl | hbb2
              · rcases hmemsplit hk hkmem with hk0 | hk1 | hk2 | hk3
                · exact Or.inl (by rw [htbh]; exact A9 hk (List.mem_append.mpr (Or.inl hk0)))
                · exact Or.inl (by rw [htbh]; exact A9 hk (List.mem_append.mpr (Or.inr hk1)))
                · refine Or.inr ?_
                  rw [htbh]
                  exact sep_chain_lo_bound _ A2 _ A10 hk hk2
                · refine Or.inr ?_
                  rw [htbh]
                  exact sep_chain_lo_bound _ A3 _ A11 hk hk3
              · rcases hmemsplit hk hkmem with hk0 | hk1 | hk2 | hk3
                · refine Or.inl ?_
                  have h1 : hk.hiFC ≤ tb.hi2 := by
                    rw [htbh]; exact A9 hk (List.mem_append.mpr (Or.inl hk0))
                  have h2 : tb.hi2 + 2 ≤ bb.lo2 :=
                    tri_lo_bound rest IH1 IH2 (tb.hi2 + 2) hheadrest bb hbb2
                  have h3 := IH2 bb hbb2
                  omega
                · refine Or.inl ?_
                  have h1 : hk.hiFC ≤ tb.hi2 := by
                    rw [htbh]; exact A9 hk (List.mem_append.mpr (Or.inr hk1))
                  have h2 : tb.hi2 + 2 ≤ bb.lo2 :=
                    tri_lo_bound rest IH1 IH2 (tb.hi2 + 2) hheadrest bb hbb2
                  have h3 := IH2 bb hbb2
                  omega
                · exact IH3 bb hbb2 hk (List.mem_append.mpr (Or.inl hk2))
                · exact IH3 bb hbb2 hk (List.mem_append.mpr (Or.inr hk3))
            · intro m _ hm1 bb hbb
              cases hbb
              rw [htbl]
              exact hm1 b rfl

theorem gaps_from_sep (hs : List diff_block) : ∀ bs : List diff3_block,
    List.Chain' (fun x y => x.hi2 + 2 ≤ y.lo2) bs →
    (∀ b ∈ bs, ∀ h ∈ hs, h.hiFC ≤ b.hi2 ∨ b.hi2 + 2 ≤ h.loFC) →
    gaps_ok hs bs := by
  intro bs
  induction bs with
  | nil => intro _ _; trivial
  | cons b1 t ih =>
    cases t with
    | nil => intro _ _; trivial
    | cons b2 t2 =>
      intro hc hcov
      refine ⟨⟨b1.hi2 + 1, by omega, ?_, ?_⟩, ?_⟩
      · have := (List.chain'_cons.mp hc).1
        omega
      · intro h hh hcv
        obtain ⟨hcv1, hcv2⟩ := hcv
        rcases hcov b1 (by simp) h hh with hle | hge <;> omega
      · exact ih hc.tail (fun x hx h hh => hcov x (by simp [hx]) h hh)

/-- C2 (amended): when each input hunk chain leaves at least one unchanged
common line between consecutive hunks (`sep_chain`, the condition the
pairwise diffs guarantee — the claim's "strictly increasing,
non-overlapping" alone does not suffice, see the counterexample), any two
successive blocks of the reconciler's output are separated by at least one
common line covered by no hunk of either thread. -/
theorem claim_C2 (t0 t1 : List diff_block) (bs : List diff3_block)
    (h0 : sep_chain t0) (h1 : sep_chain t1)
    (h : make_3way_diff t0 t1 = .ok bs) :
    gaps_ok (t0 ++ t1) bs := by
  obtain ⟨hc, hwf, hcov, -⟩ :=
    make3way_go_spec (t0.length + t1.length) t0 t1 zero_diff3 bs (le_refl _) h0 h1 h
  exact gaps_from_sep (t0 ++ t1) bs hc hcov

/-- Two hunks in thread 0 that are strictly increasing and non-overlapping
but adjacent (common lines 1-2 and 3-4): the reconciler emits two blocks
with no uncovered common line between them, refuting the claim as stated
over merely "strictly increasing, non-overlapping" chains. -/
theorem claim_C2_counterexample :
    ∃ (t0 t1 : List diff_block) (bs : List diff3_block),
      inc_chain t0 ∧ inc_chain t1 ∧ make_3way_diff t0 t1 = .ok bs ∧
        ¬ gaps_ok (t0 ++ t1) bs := by
  refine ⟨[⟨1, 2, 1, 2, [[97], [98]], [[120], [121]]⟩,
    ⟨3, 4, 3, 4, [[99], [100]], [[122], [123]]⟩], [], _, ?_, ?_, rfl, ?_⟩
  · refine ⟨?_, ?_⟩
    · intro h hh
      simp only [List.mem_cons, List.not_mem_nil, or_false] at hh
      rcases hh with rfl | rfl <;> norm_num [hunk_wf]
    · refine List.chain'_cons.mpr ⟨by norm_num, List.chain'_singleton _⟩
  · exact ⟨by simp, List.chain'_nil⟩
  · intro hg
    obtain ⟨⟨g, hg1, hg2, -⟩, -⟩ := hg
    have hg1i : (2 : Int) < g := hg1
    have hg2i : g < (3 : Int) := hg2
    omega

theorem claim_C2_witness :
    sep_chain [(⟨1, 1, 1, 1, [[97]], [[120]]⟩ : diff_block)] ∧
      sep_chain [(⟨3, 3, 3, 3, [[98]], [[121]]⟩ : diff_block)] ∧
      gaps_ok ([(⟨1, 1, 1, 1, [[97]], [[120]]⟩ : diff_block)] ++
          [(⟨3, 3, 3, 3, [[98]], [[121]]⟩ : diff_block)])
        [⟨DIFF_1ST, 1, 1, 1, 1, 1, 1, [some [97]], [some [120]], [some [120]]⟩,
          ⟨DIFF_2ND, 3, 3, 3, 3, 3, 3, [some [121]], [some [98]], [some [121]]⟩] := by
  have hs0 : sep_chain [(⟨1, 1, 1, 1, [[97]], [[120]]⟩ : diff_block)] :=
    ⟨by intro h hh; simp at hh; subst hh; norm_num [hunk_wf], List.chain'_singleton _⟩
  have hs1 : sep_chain [(⟨3, 3, 3, 3, [[98]], [[121]]⟩ : diff_block)] :=
    ⟨by intro h hh; simp at hh; subst hh; norm_num [hunk_wf], List.chain'_singleton _⟩
  exact ⟨hs0, hs1,
    claim_C2 [⟨1, 1, 1, 1, [[97]], [[120]]⟩] [⟨3, 3, 3, 3, [[98]], [[121]]⟩]
      [⟨DIFF_1ST, 1, 1, 1, 1, 1, 1, [some [97]], [some [120]], [some [120]]⟩,
        ⟨DIFF_2ND, 3, 3, 3, 3, 3, 3, [some [121]], [some [98]], [some [121]]⟩]
      hs0 hs1 rfl⟩

end Diff3
